import Mathlib

/-!
# A DNS stub resolver's wire codec (`main.go`)

Shallow embedding of the query encoder (`encodeDomainName`, `buildQuery`), of the
response decoder (`parseHeader`, `skipQuestion`, `parseAnswer`, and the answer loop of
`main`) and of the start of the loop body of `main` (`readUserInput`, the `exit` and
empty-name tests), followed by theorems about them.

Conventions.
* A Go `[]byte` and a Go `string` are both a `List Nat` of byte values; a list is a
  real buffer when each element is below 256 (`IsBytes`).
* Go `int` offsets are `Nat`; the conversions `byte(x)` and `uint16(x)` are the
  explicit remainders `toByte` and `toUint16`. For `skipQuestion`, whose offset is not
  tied to the buffer, `skipQuestionInt` is the function on 64-bit `int` with wrapping
  additions; the two agree whenever the result fits (`skipQuestionInt_eq`).
* An index expression `response[i]` that is out of range makes the Go program stop
  with a run-time error; here the enclosing function returns `none`.
* Standard library calls (`strings.Split`, `strings.TrimSpace`, `strings.ToLower`,
  `net.IPv4(..).String()`) are modelled on bytes from their documented behaviour; the
  Unicode case tables behind `strings.ToLower` are a parameter.
-/

namespace DnsCli

/-! ## Data model -/

/-- The header section of a DNS message (`type DNSHeader struct`): six `uint16` fields. -/
structure DNSHeader where
  ID : Nat
  Flags : Nat
  QDCount : Nat
  ANCount : Nat
  NSCount : Nat
  ARCount : Nat
  deriving DecidableEq, Repr

/-- A question of the DNS message (`type DNSQuestion struct`); the field `Type` is
spelled `Type_` here. -/
structure DNSQuestion where
  Name : List Nat
  Type_ : Nat
  Class : Nat
  deriving DecidableEq, Repr

/-- A list of numbers is a byte buffer when every element fits in 8 bits. -/
def IsBytes (buf : List Nat) : Prop := ∀ b ∈ buf, b < 256

instance (buf : List Nat) : Decidable (IsBytes buf) := by
  unfold IsBytes; infer_instance

/-- Go conversion `byte(x)` of an unsigned value. -/
def toByte (x : Nat) : Nat := x % 256

/-- Go conversion `uint16(x)` of an unsigned value. -/
def toUint16 (x : Nat) : Nat := x % 65536

/-- The Go expression `uint16(hi)<<8 | uint16(lo)`, evaluated in `uint16`. -/
def be16 (hi lo : Nat) : Nat := toUint16 (toUint16 hi <<< 8) ||| toUint16 lo

/-! ## Query encoder -/

/-- The byte of the separator `"."`. -/
def dot : Nat := 46

/-- Go standard library `strings.Split(domain, ".")`: the substrings between the
separators, in order; a string without separator (the empty one included) gives one
substring. -/
def splitDot : List Nat → List (List Nat)
  | [] => [[]]
  | c :: cs =>
    if c = dot then [] :: splitDot cs
    else
      match splitDot cs with
      | [] => [[c]]
      | part :: parts => (c :: part) :: parts

/-- The function `encodeDomainName`: for each part a length byte and the part, then a
terminating zero. -/
def encodeDomainName (domain : List Nat) : List Nat :=
  let parts := splitDot domain
  let encoded := parts.foldl (fun encoded part => (encoded ++ [toByte part.length]) ++ part) []
  encoded ++ [0]

/-- The function `buildQuery`; `pid` is the value of `os.Getpid()`. -/
def buildQuery (pid : Nat) (domain : List Nat) (queryType : Nat) : List Nat :=
  let header : DNSHeader :=
    { ID := toUint16 pid, Flags := 0x0100, QDCount := 1, ANCount := 0, NSCount := 0, ARCount := 0 }
  let question : DNSQuestion :=
    { Name := encodeDomainName domain, Type_ := queryType, Class := 1 }
  let query : List Nat := []
  let query := query ++ [toByte (header.ID >>> 8), toByte header.ID]
  let query := query ++ [toByte (header.Flags >>> 8), toByte header.Flags]
  let query := query ++ [toByte (header.QDCount >>> 8), toByte header.QDCount]
  let query := query ++ [toByte (header.ANCount >>> 8), toByte header.ANCount]
  let query := query ++ [toByte (header.NSCount >>> 8), toByte header.NSCount]
  let query := query ++ [toByte (header.ARCount >>> 8), toByte header.ARCount]
  let query := query ++ question.Name
  let query := query ++ [toByte (question.Type_ >>> 8), toByte question.Type_]
  let query := query ++ [toByte (question.Class >>> 8), toByte question.Class]
  query

/-! ## Response decoder -/

/-- The function `parseHeader`: six big-endian `uint16` reads at offsets 0, 2, .., 10. -/
def parseHeader (response : List Nat) : Option DNSHeader := do
  let b0 ← response[0]?
  let b1 ← response[1]?
  let b2 ← response[2]?
  let b3 ← response[3]?
  let b4 ← response[4]?
  let b5 ← response[5]?
  let b6 ← response[6]?
  let b7 ← response[7]?
  let b8 ← response[8]?
  let b9 ← response[9]?
  let b10 ← response[10]?
  let b11 ← response[11]?
  pure
    { ID := be16 b0 b1, Flags := be16 b2 b3, QDCount := be16 b4 b5,
      ANCount := be16 b6 b7, NSCount := be16 b8 b9, ARCount := be16 b10 b11 }

/-- The name loop of `skipQuestion` (`for offset < len(response)`), returning the offset
at which the loop is left. Every iteration that continues moves the offset forward, so
`len(response) - offset` iterations always suffice; `fuel` counts them down. -/
def skipQuestionLoop (response : List Nat) : Nat → Nat → Nat
  | 0, offset => offset
  | fuel + 1, offset =>
    match response[offset]? with
    | none => offset
    | some length =>
      if length = 0 then offset + 1
      else if length &&& 0xC0 = 0xC0 then offset + 2
      else skipQuestionLoop response fuel (offset + length + 1)

/-- The function `skipQuestion`: the name loop, then 4 bytes of type and class. -/
def skipQuestion (response : List Nat) (offset : Nat) : Nat :=
  skipQuestionLoop response (response.length - offset) offset + 4

/-- The name loop in the else branch of `parseAnswer`: it only stops at a zero byte or
at the end of the buffer. -/
def parseAnswerLoop (response : List Nat) : Nat → Nat → Nat
  | 0, offset => offset
  | fuel + 1, offset =>
    match response[offset]? with
    | none => offset
    | some length =>
      if length = 0 then offset + 1
      else parseAnswerLoop response fuel (offset + length + 1)

/-- Go standard library `net.IPv4(a, b, c, d).String()`: the four bytes in decimal,
joined by dots. -/
def ipv4String (a b c d : Nat) : String :=
  Nat.repr a ++ "." ++ Nat.repr b ++ "." ++ Nat.repr c ++ "." ++ Nat.repr d

/-- The function `parseAnswer`: skip the name, skip type, class and TTL, read RDLENGTH,
and give the address when RDLENGTH is 4. -/
def parseAnswer (response : List Nat) (offset : Nat) : Option (String × Nat) := do
  let first ← response[offset]?
  let offset :=
    if first &&& 0xC0 = 0xC0 then offset + 2
    else parseAnswerLoop response (response.length - offset) offset
  let offset := offset + 8
  let hi ← response[offset]?
  let lo ← response[offset + 1]?
  let rdLength := be16 hi lo
  let offset := offset + 2
  if rdLength = 4 then do
    let a ← response[offset]?
    let b ← response[offset + 1]?
    let c ← response[offset + 2]?
    let d ← response[offset + 3]?
    pure (ipv4String a b c d, offset + rdLength)
  else
    pure ("", offset + rdLength)

/-- The answer loop of `main` (`for i := 0; i < int(header.ANCount); i++`): the state is
the running offset and the addresses printed so far; the offset is assigned only inside
the `ip != ""` branch. -/
def mainAnswerLoop (response : List Nat) : Nat → Nat → List String → Option (Nat × List String)
  | 0, offset, printed => some (offset, printed)
  | n + 1, offset, printed =>
    match parseAnswer response offset with
    | none => none
    | some (ip, newOffset) =>
      if ip ≠ "" then mainAnswerLoop response n newOffset (printed ++ [ip])
      else mainAnswerLoop response n offset printed

/-- The response handling of `main`: `parseHeader`, `skipQuestion` from offset 12, then
the answer loop; the result is the list of printed addresses. -/
def mainDecode (response : List Nat) : Option (List String) := do
  let header ← parseHeader response
  let offset := 12
  let offset := skipQuestion response offset
  let (_, printed) ← mainAnswerLoop response header.ANCount offset []
  pure printed

/-! ## Wire-format vocabulary used by the statements -/

/-- The labels of a name on the wire, as the specification words it: for each label one
byte equal to the length of the label, then the bytes of the label. -/
def wireLabels : List (List Nat) → List Nat
  | [] => []
  | l :: ls => l.length :: (l ++ wireLabels ls)

/-- The labels as `encodeDomainName` writes them: the length byte is `byte(len(part))`. -/
def encodedLabels : List (List Nat) → List Nat
  | [] => []
  | l :: ls => toByte l.length :: (l ++ encodedLabels ls)

/-- The 12 header bytes of a query with transaction identifier `id`: the identifier
big-endian, flags `0x01 0x00`, QDCOUNT `0x00 0x01`, and six zero bytes. -/
def queryHeaderBytes (id : Nat) : List Nat :=
  [id / 256, id % 256, 0x01, 0x00, 0x00, 0x01, 0, 0, 0, 0, 0, 0]

/-- The bytes of the string `"example.com"`. -/
def exampleCom : List Nat := [101, 120, 97, 109, 112, 108, 101, 46, 99, 111, 109]

/-- The bytes of an answer name that the name step of `parseAnswer` passes over: either
two bytes of which the first has both top bits set (a compression pointer), or
length-prefixed non-empty labels followed by a zero byte, where the first byte does not
have both top bits set. -/
def IsAnswerName (name : List Nat) : Prop :=
  (∃ p q, name = [p, q] ∧ p &&& 0xC0 = 0xC0) ∨
  (∃ ls : List (List Nat), name = wireLabels ls ++ [0] ∧ (∀ l ∈ ls, l ≠ []) ∧
    name.headD 0 &&& 0xC0 ≠ 0xC0)

/-- A response to the query for `"example.com"` with ANCOUNT 2: an AAAA record (type 28,
RDLENGTH 16) with a pointer name at offset 29, then an A record (RDLENGTH 4, address
1.2.3.4) with a pointer name at offset 57. -/
def aaaaThenAResponse : List Nat :=
  [0, 7, 0x81, 0x80, 0, 1, 0, 2, 0, 0, 0, 0]
    ++ (encodeDomainName exampleCom ++ [0, 1, 0, 1])
    ++ ([0xC0, 0x0C] ++ [0, 28, 0, 1, 0, 0, 0, 60] ++ [0, 16]
        ++ [32, 1, 13, 184, 0, 0, 0, 0, 0, 0, 0, 0, 0, 0, 0, 1])
    ++ ([0xC0, 0x0C] ++ [0, 1, 0, 1, 0, 0, 0, 60] ++ [0, 4] ++ [1, 2, 3, 4])

/-- A response to the query for `"example.com"` with ANCOUNT 1 whose answer, at offset
29, has the name `www` followed by the pointer `0xC0 0x0C` (6 bytes), type A, RDLENGTH 4
and address 1.2.3.4. -/
def labelThenPointerResponse : List Nat :=
  [0, 7, 0x81, 0x80, 0, 1, 0, 1, 0, 0, 0, 0]
    ++ (encodeDomainName exampleCom ++ [0, 1, 0, 1])
    ++ ([3, 119, 119, 119, 0xC0, 0x0C] ++ [0, 1, 0, 1, 0, 0, 0, 60] ++ [0, 4] ++ [1, 2, 3, 4])

/-! ## The interactive loop -/

/-- The UTF-8 encodings of the code points that are white space for Go's
`unicode.IsSpace`: tab, LF, VT, FF, CR, space, U+0085, U+00A0, U+1680, U+2000 to U+200A,
U+2028, U+2029, U+202F, U+205F and U+3000. -/
def whiteSpaceSeqs : List (List Nat) :=
  [[0x09], [0x0A], [0x0B], [0x0C], [0x0D], [0x20], [0xC2, 0x85], [0xC2, 0xA0],
   [0xE1, 0x9A, 0x80],
   [0xE2, 0x80, 0x80], [0xE2, 0x80, 0x81], [0xE2, 0x80, 0x82], [0xE2, 0x80, 0x83],
   [0xE2, 0x80, 0x84], [0xE2, 0x80, 0x85], [0xE2, 0x80, 0x86], [0xE2, 0x80, 0x87],
   [0xE2, 0x80, 0x88], [0xE2, 0x80, 0x89], [0xE2, 0x80, 0x8A],
   [0xE2, 0x80, 0xA8], [0xE2, 0x80, 0xA9], [0xE2, 0x80, 0xAF], [0xE2, 0x81, 0x9F],
   [0xE3, 0x80, 0x80]]

/-- Remove from the front of `s` every leading occurrence of one of the sequences; `fuel`
bounds the number of removals and `len(s)` is always enough. -/
def stripLeading (seqs : List (List Nat)) : Nat → List Nat → List Nat
  | 0, s => s
  | fuel + 1, s =>
    match seqs.find? (fun q => q.isPrefixOf s) with
    | some q => stripLeading seqs fuel (s.drop q.length)
    | none => s

/-- Go standard library `strings.TrimSpace`: the string without its leading and trailing
white space, as defined by Unicode. -/
def trimSpace (s : List Nat) : List Nat :=
  let t := stripLeading whiteSpaceSeqs s.length s
  (stripLeading (whiteSpaceSeqs.map List.reverse) t.length t.reverse).reverse

/-- The lower-case form of an ASCII byte: `A`..`Z` go to `a`..`z`. -/
def asciiLower (c : Nat) : Nat := if 65 ≤ c ∧ c ≤ 90 then c + 32 else c

/-- Go standard library `strings.ToLower`: a string of ASCII bytes only has its letters
`A`..`Z` lowered; any other string is mapped rune by rune through the Unicode tables,
which are not part of this development and are the parameter `unicodeLower`. -/
def toLower (unicodeLower : List Nat → List Nat) (s : List Nat) : List Nat :=
  if s.all (fun c => c < 0x80) then s.map asciiLower else unicodeLower s

/-- The bytes of the string `"exit"`. -/
def exitWord : List Nat := [101, 120, 105, 116]

/-- Equality of two byte strings up to the case of ASCII letters. -/
def equalFoldAscii (s t : List Nat) : Prop := s.map asciiLower = t.map asciiLower

instance (s t : List Nat) : Decidable (equalFoldAscii s t) := by
  unfold equalFoldAscii; infer_instance

/-- The function `readUserInput`; `line` is the text of the line that the scanner read
from standard input. -/
def readUserInput (line : List Nat) : List Nat := trimSpace line

/-- What one pass through the body of the `for` loop of `main` does before any network
traffic. -/
inductive LoopAction
  /-- Print `Goodbye!` and leave the loop. -/
  | quit
  /-- Print the complaint about the empty name and start the loop body again. -/
  | reprompt
  /-- Build the query and hand it to the network code. -/
  | sendQuery (query : List Nat)
  deriving DecidableEq, Repr

/-- The start of the loop body of `main`: read the domain, test for `exit`, test for the
empty string, build the query for type 1. -/
def mainStep (unicodeLower : List Nat → List Nat) (pid : Nat) (line : List Nat) : LoopAction :=
  let domain := readUserInput line
  if toLower unicodeLower domain = exitWord then LoopAction.quit
  else if domain = [] then LoopAction.reprompt
  else LoopAction.sendQuery (buildQuery pid domain 1)

/-! ## The name loops, pass by pass -/

/-- What one pass through a `for offset < len(response)` statement does. -/
inductive LoopControl
  /-- The condition is false: the loop is left without running the body. -/
  | leave (offset : Nat)
  /-- The body ran and reached a `break`. -/
  | breakAt (offset : Nat)
  /-- The body ran to its end; the condition is tested again. -/
  | goOn (offset : Nat)
  deriving DecidableEq, Repr

/-- One pass through the name loop of `skipQuestion`. -/
def skipQuestionPass (response : List Nat) (offset : Nat) : LoopControl :=
  match response[offset]? with
  | none => LoopControl.leave offset
  | some length =>
    if length = 0 then LoopControl.breakAt (offset + 1)
    else if length &&& 0xC0 = 0xC0 then LoopControl.breakAt (offset + 2)
    else LoopControl.goOn (offset + length + 1)

/-- One pass through the name loop of `parseAnswer`. -/
def parseAnswerPass (response : List Nat) (offset : Nat) : LoopControl :=
  match response[offset]? with
  | none => LoopControl.leave offset
  | some length =>
    if length = 0 then LoopControl.breakAt (offset + 1)
    else LoopControl.goOn (offset + length + 1)

/-- Run a loop pass by pass for at most `fuel` passes, counting the iterations of the
body: the result is the offset at which the loop is left and the number of iterations, or
`none` when the loop is still running after `fuel` passes. -/
def runLoop (pass : Nat → LoopControl) : Nat → Nat → Nat → Option (Nat × Nat)
  | 0, _, _ => none
  | fuel + 1, offset, count =>
    match pass offset with
    | LoopControl.leave o => some (o, count)
    | LoopControl.breakAt o => some (o, count + 1)
    | LoopControl.goOn o => runLoop pass fuel o (count + 1)

/-- What the claim about termination says of one pass at offset `o` in a buffer of `len`
bytes: the loop is left without an iteration only when `o` is not below `len`; an
iteration runs only when `o` is below `len`, and it either breaks or moves the offset
forward by at least 2. -/
def passAdvances (len o : Nat) : LoopControl → Prop
  | LoopControl.leave o2 => o2 = o ∧ len ≤ o
  | LoopControl.breakAt _ => o < len
  | LoopControl.goOn o2 => o < len ∧ o + 2 ≤ o2

/-! ## Further responses with a pointer after a label -/

/-- A response to the query for `"example.com"` with ANCOUNT 1 whose answer, at offset
29, has the name `www` followed by the pointer `0xC0 0x0C` (6 bytes), type 28 (AAAA),
class 1, TTL 60, RDLENGTH 16 and 16 bytes of RDATA: 61 bytes in all. -/
def labelThenPointerAaaaResponse : List Nat :=
  [0, 7, 0x81, 0x80, 0, 1, 0, 1, 0, 0, 0, 0]
    ++ (encodeDomainName exampleCom ++ [0, 1, 0, 1])
    ++ ([3, 119, 119, 119, 0xC0, 0x0C] ++ [0, 28, 0, 1, 0, 0, 0, 60] ++ [0, 16]
        ++ [32, 1, 13, 184, 0, 0, 0, 0, 0, 0, 0, 0, 0, 0, 0, 1])

/-- A response to the query for `"example.com"` with ANCOUNT 1 whose answer, at offset
29, has the name `www` followed by the pointer `0xC0 0x0C` (6 bytes), type 16 (TXT),
class 1, TTL 60, RDLENGTH 4 and RDATA `1 2 3 4`: 49 bytes in all. -/
def labelThenPointerTxtResponse : List Nat :=
  [0, 7, 0x81, 0x80, 0, 1, 0, 1, 0, 0, 0, 0]
    ++ (encodeDomainName exampleCom ++ [0, 1, 0, 1])
    ++ ([3, 119, 119, 119, 0xC0, 0x0C] ++ [0, 16, 0, 1, 0, 0, 0, 60] ++ [0, 4] ++ [1, 2, 3, 4])

/-! ## `skipQuestion` with the offset a Go `int` -/

/-- The largest value of Go's `int` on a 64-bit platform. -/
def maxInt : Int := 9223372036854775807

/-- What Go's `int` arithmetic keeps of an exact result: the value reduced modulo `2^64`
into the range `-2^63 .. 2^63 - 1`. -/
def wrapInt (x : Int) : Int :=
  (x + 9223372036854775808) % 18446744073709551616 - 9223372036854775808

/-- The name loop of `skipQuestion` with `offset` a Go `int`: every addition wraps around,
and an index that is negative stops the program (`none`). The count of passes is a bound
only: with none left while `offset < len(response)` the result is `none` as well, which
does not happen with the count that `skipQuestionInt` gives (`skipQuestionLoopInt_enough`). -/
def skipQuestionLoopInt (response : List Nat) : Nat → Int → Option Int
  | 0, offset => if offset < (response.length : Int) then none else some offset
  | fuel + 1, offset =>
    if offset < (response.length : Int) then
      if offset < 0 then none
      else
        match response[offset.toNat]? with
        | none => none
        | some length =>
          if length = 0 then some (wrapInt (offset + 1))
          else if length &&& 0xC0 = 0xC0 then some (wrapInt (offset + 2))
          else skipQuestionLoopInt response fuel (wrapInt (offset + (length : Int) + 1))
    else some offset

/-- The function `skipQuestion` with `offset` and the result a Go `int` (64 bits): the
name loop, then `offset + 4` in wrapping arithmetic. On the offsets that fit it is
`skipQuestion` above (`skipQuestionInt_eq`). -/
def skipQuestionInt (response : List Nat) (offset : Int) : Option Int :=
  (skipQuestionLoopInt response (response.length + 1) offset).map (fun o => wrapInt (o + 4))

/-! ## Arithmetic of the conversions -/

theorem be16_eq (hi lo : Nat) (hhi : hi < 256) (hlo : lo < 256) :
    be16 hi lo = 256 * hi + lo := by
  unfold be16 toUint16
  have h1 : hi % 65536 = hi := Nat.mod_eq_of_lt (by omega)
  have h2 : lo % 65536 = lo := Nat.mod_eq_of_lt (by omega)
  have h3 : hi <<< 8 = 2 ^ 8 * hi := by rw [Nat.shiftLeft_eq, Nat.mul_comm]
  have h4 : (2 ^ 8 * hi) % 65536 = 2 ^ 8 * hi := Nat.mod_eq_of_lt (by omega)
  rw [h1, h2, h3, h4, ← Nat.mul_add_lt_is_or (by omega : lo < 2 ^ 8)]

/-! ## The encoder -/

theorem splitDot_ne_nil (s : List Nat) : splitDot s ≠ [] := by
  cases s with
  | nil => simp [splitDot]
  | cons c cs =>
    unfold splitDot
    split
    · simp
    · split <;> simp

theorem splitDot_of_not_mem (l : List Nat) (h : dot ∉ l) : splitDot l = [l] := by
  induction l with
  | nil => rfl
  | cons c cs ih =>
    have hc : c ≠ dot := fun e => h (by simp [e])
    have hcs : dot ∉ cs := fun e => h (by simp [e])
    simp [splitDot, hc, ih hcs]

theorem splitDot_append_dot (l rest : List Nat) (h : dot ∉ l) :
    splitDot (l ++ dot :: rest) = l :: splitDot rest := by
  induction l with
  | nil => simp [splitDot]
  | cons c cs ih =>
    have hc : c ≠ dot := fun e => h (by simp [e])
    have hcs : dot ∉ cs := fun e => h (by simp [e])
    simp [splitDot, hc, ih hcs]

/-- Splitting the dot-joined labels gives the labels back. -/
theorem splitDot_intercalate (ls : List (List Nat)) (hne : ls ≠ [])
    (hdot : ∀ l ∈ ls, dot ∉ l) : splitDot (List.intercalate [dot] ls) = ls := by
  induction ls with
  | nil => exact absurd rfl hne
  | cons l ls ih =>
    cases ls with
    | nil =>
      simpa [List.intercalate] using splitDot_of_not_mem l (hdot l (by simp))
    | cons m ms =>
      have hl : dot ∉ l := hdot l (by simp)
      have ih2 := ih (by simp) (fun x hx => hdot x (by simp [hx]))
      have e : List.intercalate [dot] (l :: m :: ms)
          = l ++ dot :: List.intercalate [dot] (m :: ms) := by
        simp [List.intercalate, List.intersperse]
      rw [e, splitDot_append_dot l _ hl, ih2]

theorem foldl_encoded (parts : List (List Nat)) (acc : List Nat) :
    parts.foldl (fun encoded part => (encoded ++ [toByte part.length]) ++ part) acc
      = acc ++ encodedLabels parts := by
  induction parts generalizing acc with
  | nil => simp [encodedLabels]
  | cons p ps ih =>
    rw [List.foldl_cons, ih]
    simp [encodedLabels]

theorem encodeDomainName_eq (domain : List Nat) :
    encodeDomainName domain = encodedLabels (splitDot domain) ++ [0] := by
  show (splitDot domain).foldl _ [] ++ [0] = _
  rw [foldl_encoded]
  simp

theorem encodedLabels_eq_wireLabels (ls : List (List Nat)) (h : ∀ l ∈ ls, l.length < 256) :
    encodedLabels ls = wireLabels ls := by
  induction ls with
  | nil => rfl
  | cons l ls ih =>
    have hl : l.length % 256 = l.length := Nat.mod_eq_of_lt (h l (by simp))
    simp [encodedLabels, wireLabels, toByte, hl, ih (fun x hx => h x (by simp [hx]))]

theorem buildQuery_eq (pid : Nat) (domain : List Nat) (queryType : Nat) :
    buildQuery pid domain queryType
      = queryHeaderBytes (pid % 65536) ++ encodeDomainName domain
          ++ [queryType / 256 % 256, queryType % 256, 0, 1] := by
  simp [buildQuery, queryHeaderBytes, toByte, toUint16, Nat.shiftRight_eq_div_pow]
  omega

/-! ## The name walks -/

theorem getElem?_at_length (pre : List Nat) (x : Nat) (tail : List Nat) :
    (pre ++ x :: tail)[pre.length]? = some x := by
  rw [List.getElem?_append_right (Nat.le_refl _)]
  simp

theorem wireLabels_append (ls ms : List (List Nat)) :
    wireLabels (ls ++ ms) = wireLabels ls ++ wireLabels ms := by
  induction ls with
  | nil => rfl
  | cons l ls ih => simp [wireLabels, ih]

/-- The loop of `skipQuestion` over labels followed by a terminator byte `t` (a zero or a
pointer byte): it stops right after the terminator, sized 1 or 2. -/
theorem skipQuestionLoop_labels (ls : List (List Nat)) :
    ∀ (pre rest : List Nat) (t fuel : Nat),
      (∀ l ∈ ls, l ≠ [] ∧ l.length &&& 0xC0 ≠ 0xC0) →
      (t = 0 ∨ t &&& 0xC0 = 0xC0) →
      (wireLabels ls).length + 1 + rest.length ≤ fuel →
      skipQuestionLoop (pre ++ wireLabels ls ++ t :: rest) fuel pre.length
        = pre.length + (wireLabels ls).length + (if t = 0 then 1 else 2) := by
  induction ls with
  | nil =>
    intro pre rest t fuel _ ht hfuel
    obtain ⟨f, rfl⟩ : ∃ f, fuel = f + 1 := ⟨fuel - 1, by omega⟩
    simp only [wireLabels, List.append_nil, List.length_nil, Nat.add_zero]
    rw [skipQuestionLoop, getElem?_at_length]
    rcases ht with h0 | hp
    · simp [h0]
    · by_cases h0 : t = 0
      · simp [h0]
      · simp [h0, hp]
  | cons l ls ih =>
    intro pre rest t fuel hl ht hfuel
    obtain ⟨f, rfl⟩ : ∃ f, fuel = f + 1 := ⟨fuel - 1, by omega⟩
    have hl0 := hl l (by simp)
    have hlen : l.length ≠ 0 := by
      intro e; exact hl0.1 (List.length_eq_zero.mp e)
    have hbuf : pre ++ wireLabels (l :: ls) ++ t :: rest
        = (pre ++ l.length :: l) ++ wireLabels ls ++ t :: rest := by
      simp [wireLabels]
    have hread : (pre ++ wireLabels (l :: ls) ++ t :: rest)[pre.length]? = some l.length := by
      have e : pre ++ wireLabels (l :: ls) ++ t :: rest
          = pre ++ l.length :: (l ++ wireLabels ls ++ t :: rest) := by simp [wireLabels]
      rw [e, getElem?_at_length]
    rw [skipQuestionLoop, hread]
    simp only [hlen, hl0.2, if_false]
    have hfuel2 : (wireLabels ls).length + 1 + rest.length ≤ f := by
      simp [wireLabels] at hfuel; omega
    have key := ih (pre ++ l.length :: l) rest t f
      (fun x hx => hl x (by simp [hx])) ht hfuel2
    rw [hbuf]
    have hoff : pre.length + l.length + 1 = (pre ++ l.length :: l).length := by simp; omega
    rw [hoff, key]
    simp [wireLabels]; omega

/-- The loop of `parseAnswer` over labels followed by a zero byte: it stops right after
the zero byte. Every non-zero length byte is taken as a length. -/
theorem parseAnswerLoop_labels (ls : List (List Nat)) :
    ∀ (pre rest : List Nat) (fuel : Nat),
      (∀ l ∈ ls, l ≠ []) →
      (wireLabels ls).length + 1 + rest.length ≤ fuel →
      parseAnswerLoop (pre ++ wireLabels ls ++ 0 :: rest) fuel pre.length
        = pre.length + (wireLabels ls).length + 1 := by
  induction ls with
  | nil =>
    intro pre rest fuel _ hfuel
    obtain ⟨f, rfl⟩ : ∃ f, fuel = f + 1 := ⟨fuel - 1, by omega⟩
    simp only [wireLabels, List.append_nil, List.length_nil, Nat.add_zero]
    rw [parseAnswerLoop, getElem?_at_length]
    simp
  | cons l ls ih =>
    intro pre rest fuel hl hfuel
    obtain ⟨f, rfl⟩ : ∃ f, fuel = f + 1 := ⟨fuel - 1, by omega⟩
    have hlen : l.length ≠ 0 := by
      intro e; exact hl l (by simp) (List.length_eq_zero.mp e)
    have hbuf : pre ++ wireLabels (l :: ls) ++ 0 :: rest
        = (pre ++ l.length :: l) ++ wireLabels ls ++ 0 :: rest := by
      simp [wireLabels]
    have hread : (pre ++ wireLabels (l :: ls) ++ 0 :: rest)[pre.length]? = some l.length := by
      have e : pre ++ wireLabels (l :: ls) ++ 0 :: rest
          = pre ++ l.length :: (l ++ wireLabels ls ++ 0 :: rest) := by simp [wireLabels]
      rw [e, getElem?_at_length]
    rw [parseAnswerLoop, hread]
    simp only [hlen, if_false]
    have hfuel2 : (wireLabels ls).length + 1 + rest.length ≤ f := by
      simp [wireLabels] at hfuel; omega
    have key := ih (pre ++ l.length :: l) rest f (fun x hx => hl x (by simp [hx])) hfuel2
    rw [hbuf]
    have hoff : pre.length + l.length + 1 = (pre ++ l.length :: l).length := by simp; omega
    rw [hoff, key]
    simp [wireLabels]; omega

/-- The count `len(response) - offset` is enough for the loop of `skipQuestion`: one more
iteration allowed changes nothing. -/
theorem skipQuestionLoop_succ (response : List Nat) :
    ∀ (fuel offset : Nat), response.length - offset ≤ fuel →
      skipQuestionLoop response (fuel + 1) offset = skipQuestionLoop response fuel offset := by
  intro fuel
  induction fuel with
  | zero =>
    intro offset h
    have hnone : response[offset]? = none := List.getElem?_eq_none (by omega)
    simp [skipQuestionLoop, hnone]
  | succ f ih =>
    intro offset h
    rw [skipQuestionLoop, skipQuestionLoop]
    cases hread : response[offset]? with
    | none => rfl
    | some length =>
      by_cases h0 : length = 0
      · simp [h0]
      · by_cases hp : length &&& 0xC0 = 0xC0
        · simp [h0, hp]
        · simp only [h0, hp, if_false]
          exact ih (offset + length + 1) (by omega)

/-- The loop of `skipQuestion` gives the same offset for every count of iterations from
`len(response) - offset` up: the loop always ends within that count. -/
theorem skipQuestionLoop_enough (response : List Nat) (offset extra : Nat) :
    skipQuestionLoop response (response.length - offset + extra) offset
      = skipQuestionLoop response (response.length - offset) offset := by
  induction extra with
  | zero => rfl
  | succ k ih =>
    rw [← Nat.add_assoc, skipQuestionLoop_succ response _ offset (by omega), ih]

/-- The count `len(response) - offset` is enough for the name loop of `parseAnswer`. -/
theorem parseAnswerLoop_succ (response : List Nat) :
    ∀ (fuel offset : Nat), response.length - offset ≤ fuel →
      parseAnswerLoop response (fuel + 1) offset = parseAnswerLoop response fuel offset := by
  intro fuel
  induction fuel with
  | zero =>
    intro offset h
    have hnone : response[offset]? = none := List.getElem?_eq_none (by omega)
    simp [parseAnswerLoop, hnone]
  | succ f ih =>
    intro offset h
    rw [parseAnswerLoop, parseAnswerLoop]
    cases hread : response[offset]? with
    | none => rfl
    | some length =>
      by_cases h0 : length = 0
      · simp [h0]
      · simp only [h0, if_false]
        exact ih (offset + length + 1) (by omega)

/-- The name loop of `parseAnswer` gives the same offset for every count of iterations
from `len(response) - offset` up. -/
theorem parseAnswerLoop_enough (response : List Nat) (offset extra : Nat) :
    parseAnswerLoop response (response.length - offset + extra) offset
      = parseAnswerLoop response (response.length - offset) offset := by
  induction extra with
  | zero => rfl
  | succ k ih =>
    rw [← Nat.add_assoc, parseAnswerLoop_succ response _ offset (by omega), ih]

/-- The function `skipQuestion` over labels followed by a zero or a pointer byte. -/
theorem skipQuestion_labels (pre rest : List Nat) (ls : List (List Nat)) (t : Nat)
    (hl : ∀ l ∈ ls, l ≠ [] ∧ l.length &&& 0xC0 ≠ 0xC0) (ht : t = 0 ∨ t &&& 0xC0 = 0xC0) :
    skipQuestion (pre ++ wireLabels ls ++ t :: rest) pre.length
      = pre.length + (wireLabels ls).length + (if t = 0 then 1 else 2) + 4 := by
  unfold skipQuestion
  rw [skipQuestionLoop_labels ls pre rest t _ hl ht (by simp; omega)]

theorem small_length_not_pointer (n : Nat) (h1 : 1 ≤ n) (h63 : n ≤ 63) :
    n ≠ 0 ∧ n &&& 0xC0 ≠ 0xC0 := by
  interval_cases n <;> decide

theorem wireLabels_length (ls : List (List Nat)) :
    (wireLabels ls).length = (ls.map (fun l => l.length + 1)).sum := by
  induction ls with
  | nil => rfl
  | cons l ls ih => simp [wireLabels, ih]; omega

theorem parseHeader_take (buf : List Nat) : parseHeader (buf.take 12) = parseHeader buf := by
  have h : ∀ m, m < 12 → (buf.take 12)[m]? = buf[m]? :=
    fun m hm => List.getElem?_take_of_lt hm
  unfold parseHeader
  rw [h 0 (by decide), h 1 (by decide), h 2 (by decide), h 3 (by decide), h 4 (by decide),
    h 5 (by decide), h 6 (by decide), h 7 (by decide), h 8 (by decide), h 9 (by decide),
    h 10 (by decide), h 11 (by decide)]

/-- The byte right after the header of a query for a dot-free domain is `byte(len)`. -/
theorem buildQuery_first_length (pid : Nat) (l : List Nat) (queryType : Nat) (h : dot ∉ l) :
    (buildQuery pid l queryType)[12]? = some (l.length % 256) := by
  rw [buildQuery_eq, encodeDomainName_eq, splitDot_of_not_mem l h]
  simp [queryHeaderBytes, encodedLabels, toByte]

theorem intercalate_singleton (l : List Nat) : List.intercalate [dot] [l] = l := by
  simp [List.intercalate]

theorem parseHeader_cons12 (b0 b1 b2 b3 b4 b5 b6 b7 b8 b9 b10 b11 : Nat) (rest : List Nat) :
    parseHeader (b0 :: b1 :: b2 :: b3 :: b4 :: b5 :: b6 :: b7 :: b8 :: b9 :: b10 :: b11 :: rest)
      = some { ID := be16 b0 b1, Flags := be16 b2 b3, QDCount := be16 b4 b5,
               ANCount := be16 b6 b7, NSCount := be16 b8 b9, ARCount := be16 b10 b11 } := by
  simp [parseHeader]

/-! ## One answer record -/

theorem getElem?_at (pfx : List Nat) (x : Nat) (tail : List Nat) (n : Nat)
    (h : pfx.length = n) : (pfx ++ x :: tail)[n]? = some x := by
  subst h
  exact getElem?_at_length pfx x tail

/-- The function `parseAnswer` once the first byte, the end `e` of the name and the two
RDLENGTH bytes are known. -/
theorem parseAnswer_unfold (buf : List Nat) (off first e hi lo : Nat)
    (h0 : buf[off]? = some first)
    (he : (if first &&& 0xC0 = 0xC0 then off + 2
            else parseAnswerLoop buf (buf.length - off) off) = e)
    (hhi : buf[e + 8]? = some hi) (hlo : buf[e + 8 + 1]? = some lo) :
    parseAnswer buf off
      = if be16 hi lo = 4 then
          (do
            let a ← buf[e + 8 + 2]?
            let b ← buf[e + 8 + 2 + 1]?
            let c ← buf[e + 8 + 2 + 2]?
            let d ← buf[e + 8 + 2 + 3]?
            pure (ipv4String a b c d, e + 8 + 2 + be16 hi lo))
        else some ("", e + 8 + 2 + be16 hi lo) := by
  unfold parseAnswer
  simp only [h0, Option.bind_eq_bind, Option.some_bind, he, hhi, hlo]
  rfl

/-- The name step of `parseAnswer` ends right after an answer name. -/
theorem answerName_end (pre name tail : List Nat) (h : IsAnswerName name) :
    ∃ first, (pre ++ name ++ tail)[pre.length]? = some first ∧
      (if first &&& 0xC0 = 0xC0 then pre.length + 2
        else parseAnswerLoop (pre ++ name ++ tail) ((pre ++ name ++ tail).length - pre.length)
          pre.length) = pre.length + name.length := by
  rcases h with ⟨p, q, rfl, hp⟩ | ⟨ls, hname, hne, hfirst⟩
  · refine ⟨p, ?_, ?_⟩
    · have e : pre ++ [p, q] ++ tail = pre ++ p :: (q :: tail) := by simp
      rw [e, getElem?_at_length]
    · simp [hp]
  · refine ⟨name.headD 0, ?_, ?_⟩
    · rw [List.append_assoc, List.getElem?_append_right (Nat.le_refl _)]
      cases ls with
      | nil => simp [hname, wireLabels]
      | cons l ls => simp [hname, wireLabels]
    · rw [if_neg hfirst]
      have e : pre ++ name ++ tail = pre ++ wireLabels ls ++ 0 :: tail := by
        rw [hname]; simp
      rw [e, parseAnswerLoop_labels ls pre tail _ hne (by simp; omega)]
      rw [hname]; simp; omega

theorem getElem?_of_eq (buf pfx : List Nat) (x : Nat) (tail : List Nat) (n : Nat)
    (hb : buf = pfx ++ x :: tail) (h : pfx.length = n) : buf[n]? = some x := by
  subst hb
  exact getElem?_at pfx x tail n h

/-- A record with RDLENGTH 4: the address and the offset after the record. -/
theorem parseAnswer_address_record (pre name fixed rest : List Nat) (hi lo a b c d : Nat)
    (hname : IsAnswerName name) (hfixed : fixed.length = 8) (hrd : be16 hi lo = 4) :
    parseAnswer (pre ++ name ++ fixed ++ hi :: lo :: a :: b :: c :: d :: rest) pre.length
      = some (ipv4String a b c d, pre.length + name.length + 8 + 2 + 4) := by
  obtain ⟨first, h0, he⟩ :=
    answerName_end pre name (fixed ++ hi :: lo :: a :: b :: c :: d :: rest) hname
  have ebuf : pre ++ name ++ fixed ++ hi :: lo :: a :: b :: c :: d :: rest
      = pre ++ name ++ (fixed ++ hi :: lo :: a :: b :: c :: d :: rest) := by simp
  rw [ebuf]
  generalize hbuf : pre ++ name ++ (fixed ++ hi :: lo :: a :: b :: c :: d :: rest) = buf at h0 he
  have hhi : buf[pre.length + name.length + 8]? = some hi :=
    getElem?_of_eq buf (pre ++ name ++ fixed) hi (lo :: a :: b :: c :: d :: rest) _
      (by rw [← hbuf]; simp) (by simp [hfixed]; omega)
  have hlo : buf[pre.length + name.length + 8 + 1]? = some lo :=
    getElem?_of_eq buf (pre ++ name ++ fixed ++ [hi]) lo (a :: b :: c :: d :: rest) _
      (by rw [← hbuf]; simp) (by simp [hfixed]; omega)
  have ha : buf[pre.length + name.length + 8 + 2]? = some a :=
    getElem?_of_eq buf (pre ++ name ++ fixed ++ [hi, lo]) a (b :: c :: d :: rest) _
      (by rw [← hbuf]; simp) (by simp [hfixed]; omega)
  have hb : buf[pre.length + name.length + 8 + 2 + 1]? = some b :=
    getElem?_of_eq buf (pre ++ name ++ fixed ++ [hi, lo, a]) b (c :: d :: rest) _
      (by rw [← hbuf]; simp) (by simp [hfixed]; omega)
  have hc : buf[pre.length + name.length + 8 + 2 + 2]? = some c :=
    getElem?_of_eq buf (pre ++ name ++ fixed ++ [hi, lo, a, b]) c (d :: rest) _
      (by rw [← hbuf]; simp) (by simp [hfixed]; omega)
  have hd : buf[pre.length + name.length + 8 + 2 + 3]? = some d :=
    getElem?_of_eq buf (pre ++ name ++ fixed ++ [hi, lo, a, b, c]) d rest _
      (by rw [← hbuf]; simp) (by simp [hfixed]; omega)
  rw [parseAnswer_unfold buf pre.length first (pre.length + name.length) hi lo h0 he hhi hlo]
  simp [hrd, ha, hb, hc, hd]

/-- A record with RDLENGTH other than 4: no address, and the offset after the record. -/
theorem parseAnswer_other_record (pre name fixed rest : List Nat) (hi lo : Nat)
    (hname : IsAnswerName name) (hfixed : fixed.length = 8) (hrd : be16 hi lo ≠ 4) :
    parseAnswer (pre ++ name ++ fixed ++ hi :: lo :: rest) pre.length
      = some ("", pre.length + name.length + 8 + 2 + be16 hi lo) := by
  obtain ⟨first, h0, he⟩ := answerName_end pre name (fixed ++ hi :: lo :: rest) hname
  have ebuf : pre ++ name ++ fixed ++ hi :: lo :: rest
      = pre ++ name ++ (fixed ++ hi :: lo :: rest) := by simp
  rw [ebuf]
  generalize hbuf : pre ++ name ++ (fixed ++ hi :: lo :: rest) = buf at h0 he
  have hhi : buf[pre.length + name.length + 8]? = some hi :=
    getElem?_of_eq buf (pre ++ name ++ fixed) hi (lo :: rest) _
      (by rw [← hbuf]; simp) (by simp [hfixed]; omega)
  have hlo : buf[pre.length + name.length + 8 + 1]? = some lo :=
    getElem?_of_eq buf (pre ++ name ++ fixed ++ [hi]) lo rest _
      (by rw [← hbuf]; simp) (by simp [hfixed]; omega)
  rw [parseAnswer_unfold buf pre.length first (pre.length + name.length) hi lo h0 he hhi hlo]
  simp [hrd]

theorem ipv4String_eq_intercalate (a b c d : Nat) :
    ipv4String a b c d = String.intercalate "." [Nat.repr a, Nat.repr b, Nat.repr c, Nat.repr d] :=
  rfl

/-- A record whose first name byte has both top bits set: the name takes 2 bytes, the
RDLENGTH bytes are the ones at `off + 10` and `off + 11`. -/
theorem parseAnswer_pointer (buf : List Nat) (off p hi lo : Nat)
    (hp : buf[off]? = some p) (hptr : p &&& 0xC0 = 0xC0)
    (hhi : buf[off + 10]? = some hi) (hlo : buf[off + 11]? = some lo) :
    parseAnswer buf off
      = if be16 hi lo = 4 then
          (do
            let a ← buf[off + 12]?
            let b ← buf[off + 13]?
            let c ← buf[off + 14]?
            let d ← buf[off + 15]?
            pure (ipv4String a b c d, off + 12 + be16 hi lo))
        else some ("", off + 12 + be16 hi lo) := by
  have h := parseAnswer_unfold buf off p (off + 2) hi lo hp (by simp [hptr])
    (by rw [show off + 2 + 8 = off + 10 by omega]; exact hhi)
    (by rw [show off + 2 + 8 + 1 = off + 11 by omega]; exact hlo)
  rw [h, show off + 2 + 8 + 2 = off + 12 by omega, show off + 12 + 1 = off + 13 by omega,
    show off + 12 + 2 = off + 14 by omega, show off + 12 + 3 = off + 15 by omega]

/-- When the name loop of `parseAnswer` ends inside the buffer, the bytes it passed over
are non-empty length-prefixed labels followed by a zero byte. -/
theorem parseAnswerLoop_inside (buf : List Nat) :
    ∀ (fuel off : Nat), buf.length - off ≤ fuel →
      parseAnswerLoop buf fuel off < buf.length →
      ∃ ls : List (List Nat), (∀ l ∈ ls, l ≠ []) ∧
        buf.drop off = wireLabels ls ++ 0 :: buf.drop (parseAnswerLoop buf fuel off) ∧
        parseAnswerLoop buf fuel off = off + (wireLabels ls).length + 1 := by
  intro fuel
  induction fuel with
  | zero =>
    intro off hfuel hin
    rw [parseAnswerLoop] at hin
    omega
  | succ f ih =>
    intro off hfuel hin
    rw [parseAnswerLoop] at hin ⊢
    cases hread : buf[off]? with
    | none =>
      rw [hread] at hin
      have := List.getElem?_eq_none_iff.mp hread
      simp only at hin
      omega
    | some length =>
      rw [hread] at hin
      obtain ⟨hoff, hval⟩ := List.getElem?_eq_some.mp hread
      have hdrop : buf.drop off = length :: buf.drop (off + 1) := by
        rw [List.drop_eq_getElem_cons hoff, hval]
      by_cases h0 : length = 0
      · refine ⟨[], by simp, ?_, ?_⟩
        · simp [h0, wireLabels, hdrop]
        · simp [h0, wireLabels]
      · simp only [h0, if_false] at hin ⊢
        obtain ⟨ls, hne, hd, he⟩ := ih (off + length + 1) (by omega) hin
        have hnext : off + length + 1 < buf.length := by omega
        have hsplit : buf.drop (off + 1)
            = (buf.drop (off + 1)).take length ++ buf.drop (off + length + 1) := by
          have h1 := (List.take_append_drop length (buf.drop (off + 1))).symm
          rw [List.drop_drop] at h1
          rw [show off + length + 1 = off + 1 + length by omega]
          exact h1
        have hlen : ((buf.drop (off + 1)).take length).length = length := by
          rw [List.length_take, List.length_drop]
          omega
        refine ⟨(buf.drop (off + 1)).take length :: ls, ?_, ?_, ?_⟩
        · intro l hl
          rcases List.mem_cons.mp hl with rfl | hl
          · intro e
            rw [e] at hlen
            exact h0 hlen.symm
          · exact hne l hl
        · rw [hdrop]
          conv_lhs => rw [hsplit, hd]
          simp [wireLabels, hlen]
        · rw [he]
          simp [wireLabels, hlen]
          omega

/-- Whenever `parseAnswer` returns, the buffer holds at the offset an answer name in the
sense of `IsAnswerName`: the records of `parseAnswer_address_record` and
`parseAnswer_other_record` are all the records on which the function returns. -/
theorem parseAnswer_some_name (buf : List Nat) (off : Nat) (r : String × Nat)
    (h : parseAnswer buf off = some r) :
    ∃ pre name rest, buf = pre ++ name ++ rest ∧ pre.length = off ∧ IsAnswerName name := by
  unfold parseAnswer at h
  cases hread : buf[off]? with
  | none => rw [hread] at h; simp at h
  | some first =>
    rw [hread] at h
    simp only [Option.bind_eq_bind, Option.some_bind] at h
    obtain ⟨hi, hhi, _⟩ := Option.bind_eq_some.mp h
    obtain ⟨hoff, hval⟩ := List.getElem?_eq_some.mp hread
    obtain ⟨hin, _⟩ := List.getElem?_eq_some.mp hhi
    have hpre : (buf.take off).length = off := by
      rw [List.length_take]; omega
    by_cases hp : first &&& 0xC0 = 0xC0
    · simp only [hp, if_true] at hin
      refine ⟨buf.take off, [first, buf[off + 1]], buf.drop (off + 2), ?_, hpre,
        Or.inl ⟨first, buf[off + 1], rfl, hp⟩⟩
      have h1 : buf.drop off = first :: buf.drop (off + 1) := by
        rw [List.drop_eq_getElem_cons hoff, hval]
      have h2 : buf.drop (off + 1) = buf[off + 1] :: buf.drop (off + 2) :=
        List.drop_eq_getElem_cons (by omega)
      conv_lhs => rw [← List.take_append_drop off buf, h1, h2]
      simp
    · simp only [hp, if_false] at hin
      obtain ⟨ls, hne, hd, _⟩ :=
        parseAnswerLoop_inside buf (buf.length - off) off (Nat.le_refl _) (by omega)
      have h1 : buf.drop off = first :: buf.drop (off + 1) := by
        rw [List.drop_eq_getElem_cons hoff, hval]
      refine ⟨buf.take off, wireLabels ls ++ [0],
        buf.drop (parseAnswerLoop buf (buf.length - off) off), ?_, hpre,
        Or.inr ⟨ls, rfl, hne, ?_⟩⟩
      · conv_lhs => rw [← List.take_append_drop off buf, hd]
        simp
      · have hhead : (wireLabels ls ++ [0]).headD 0 = first := by
          have h3 : (buf.drop off).headD 0 = first := by rw [h1]; rfl
          rw [hd] at h3
          cases ls with
          | nil => simpa [wireLabels] using h3
          | cons l ls => simpa [wireLabels] using h3
        rw [hhead]
        exact hp

/-! ## The response handling of `main` -/

theorem exists_cons (l : List Nat) (n : Nat) (h : n + 1 ≤ l.length) :
    ∃ x t, l = x :: t ∧ n ≤ t.length := by
  cases l with
  | nil => simp at h
  | cons x t => exact ⟨x, t, rfl, by simpa using h⟩

theorem exists_cons12 (buf : List Nat) (h : 12 ≤ buf.length) :
    ∃ b0 b1 b2 b3 b4 b5 b6 b7 b8 b9 b10 b11 rest,
      buf = b0 :: b1 :: b2 :: b3 :: b4 :: b5 :: b6 :: b7 :: b8 :: b9 :: b10 :: b11 :: rest := by
  obtain ⟨b0, t0, rfl, h0⟩ := exists_cons buf 11 h
  obtain ⟨b1, t1, rfl, h1⟩ := exists_cons t0 10 h0
  obtain ⟨b2, t2, rfl, h2⟩ := exists_cons t1 9 h1
  obtain ⟨b3, t3, rfl, h3⟩ := exists_cons t2 8 h2
  obtain ⟨b4, t4, rfl, h4⟩ := exists_cons t3 7 h3
  obtain ⟨b5, t5, rfl, h5⟩ := exists_cons t4 6 h4
  obtain ⟨b6, t6, rfl, h6⟩ := exists_cons t5 5 h5
  obtain ⟨b7, t7, rfl, h7⟩ := exists_cons t6 4 h6
  obtain ⟨b8, t8, rfl, h8⟩ := exists_cons t7 3 h7
  obtain ⟨b9, t9, rfl, h9⟩ := exists_cons t8 2 h8
  obtain ⟨b10, t10, rfl, h10⟩ := exists_cons t9 1 h9
  obtain ⟨b11, t11, rfl, _⟩ := exists_cons t10 0 h10
  exact ⟨b0, b1, b2, b3, b4, b5, b6, b7, b8, b9, b10, b11, t11, rfl⟩

theorem encodeDomainName_exampleCom :
    encodeDomainName exampleCom
      = wireLabels [[101, 120, 97, 109, 112, 108, 101], [99, 111, 109]] ++ [0] := by
  decide

/-- The response handling of `main` on a response with ANCOUNT 2, the question for
`"example.com"`, and two records with RDLENGTH 4, the second with a pointer name. -/
theorem mainDecode_two_addresses (i0 i1 f0 f1 q0 q1 n0 n1 r0 r1 p q : Nat)
    (name1 fixed1 fixed2 rest : List Nat) (a1 b1 c1 d1 a2 b2 c2 d2 : Nat)
    (hname1 : IsAnswerName name1) (hfixed1 : fixed1.length = 8) (hfixed2 : fixed2.length = 8)
    (hp : p &&& 0xC0 = 0xC0)
    (hs1 : ipv4String a1 b1 c1 d1 ≠ "") (hs2 : ipv4String a2 b2 c2 d2 ≠ "") :
    mainDecode
        ([i0, i1, f0, f1, q0, q1, 0, 2, n0, n1, r0, r1]
          ++ (encodeDomainName exampleCom ++ [0, 1, 0, 1])
          ++ (name1 ++ fixed1 ++ [0, 4] ++ [a1, b1, c1, d1])
          ++ ([p, q] ++ fixed2 ++ [0, 4] ++ [a2, b2, c2, d2]) ++ rest)
      = some [ipv4String a1 b1 c1 d1, ipv4String a2 b2 c2 d2] := by
  generalize hresp : [i0, i1, f0, f1, q0, q1, 0, 2, n0, n1, r0, r1]
          ++ (encodeDomainName exampleCom ++ [0, 1, 0, 1])
          ++ (name1 ++ fixed1 ++ [0, 4] ++ [a1, b1, c1, d1])
          ++ ([p, q] ++ fixed2 ++ [0, 4] ++ [a2, b2, c2, d2]) ++ rest = resp
  have hheader : parseHeader resp
      = some { ID := be16 i0 i1, Flags := be16 f0 f1, QDCount := be16 q0 q1,
               ANCount := 2, NSCount := be16 n0 n1, ARCount := be16 r0 r1 } := by
    rw [← hresp]
    exact parseHeader_cons12 i0 i1 f0 f1 q0 q1 0 2 n0 n1 r0 r1 _
  have hskip : skipQuestion resp 12 = 29 := by
    have e : resp = [i0, i1, f0, f1, q0, q1, 0, 2, n0, n1, r0, r1]
        ++ wireLabels [[101, 120, 97, 109, 112, 108, 101], [99, 111, 109]]
        ++ 0 :: ([0, 1, 0, 1] ++ (name1 ++ fixed1 ++ [0, 4] ++ [a1, b1, c1, d1])
          ++ ([p, q] ++ fixed2 ++ [0, 4] ++ [a2, b2, c2, d2]) ++ rest) := by
      rw [← hresp, encodeDomainName_exampleCom]; simp
    rw [e]
    exact skipQuestion_labels [i0, i1, f0, f1, q0, q1, 0, 2, n0, n1, r0, r1] _
      [[101, 120, 97, 109, 112, 108, 101], [99, 111, 109]] 0 (by decide) (Or.inl rfl)
  have hfirst : parseAnswer resp 29
      = some (ipv4String a1 b1 c1 d1, 29 + name1.length + 8 + 2 + 4) := by
    have e : resp = ([i0, i1, f0, f1, q0, q1, 0, 2, n0, n1, r0, r1]
          ++ (encodeDomainName exampleCom ++ [0, 1, 0, 1]))
        ++ name1 ++ fixed1 ++ 0 :: 4 :: a1 :: b1 :: c1 :: d1
          :: (([p, q] ++ fixed2 ++ [0, 4] ++ [a2, b2, c2, d2]) ++ rest) := by
      rw [← hresp]; simp
    rw [e]
    exact parseAnswer_address_record ([i0, i1, f0, f1, q0, q1, 0, 2, n0, n1, r0, r1]
        ++ (encodeDomainName exampleCom ++ [0, 1, 0, 1])) name1 fixed1 _ 0 4 a1 b1 c1 d1
      hname1 hfixed1 (by decide)
  have hsecond : parseAnswer resp (29 + name1.length + 8 + 2 + 4)
      = some (ipv4String a2 b2 c2 d2, 29 + name1.length + 8 + 2 + 4 + 2 + 8 + 2 + 4) := by
    have e : resp = ([i0, i1, f0, f1, q0, q1, 0, 2, n0, n1, r0, r1]
          ++ (encodeDomainName exampleCom ++ [0, 1, 0, 1])
          ++ (name1 ++ fixed1 ++ [0, 4] ++ [a1, b1, c1, d1]))
        ++ [p, q] ++ fixed2 ++ 0 :: 4 :: a2 :: b2 :: c2 :: d2 :: rest := by
      rw [← hresp]; simp
    have hlen : ([i0, i1, f0, f1, q0, q1, 0, 2, n0, n1, r0, r1]
          ++ (encodeDomainName exampleCom ++ [0, 1, 0, 1])
          ++ (name1 ++ fixed1 ++ [0, 4] ++ [a1, b1, c1, d1])).length
        = 29 + name1.length + 8 + 2 + 4 := by
      rw [encodeDomainName_exampleCom]
      simp [wireLabels, hfixed1]
      omega
    have key := parseAnswer_address_record ([i0, i1, f0, f1, q0, q1, 0, 2, n0, n1, r0, r1]
          ++ (encodeDomainName exampleCom ++ [0, 1, 0, 1])
          ++ (name1 ++ fixed1 ++ [0, 4] ++ [a1, b1, c1, d1])) [p, q] fixed2 rest 0 4 a2 b2 c2 d2
      (Or.inl ⟨p, q, rfl, hp⟩) hfixed2 (by decide)
    rw [hlen, ← e] at key
    exact key
  have hloop : mainAnswerLoop resp 2 29 []
      = some (29 + name1.length + 8 + 2 + 4 + 2 + 8 + 2 + 4,
          [ipv4String a1 b1 c1 d1, ipv4String a2 b2 c2 d2]) := by
    simp [mainAnswerLoop, hfirst, hsecond, hs1, hs2]
  simp [mainDecode, hheader, hskip, hloop]

/-- Once `parseAnswer` returns the empty string at the running offset, the answer loop of
`main` keeps that offset and prints nothing more, whatever the number of iterations. -/
theorem mainAnswerLoop_stuck (response : List Nat) (offset newOffset : Nat)
    (h : parseAnswer response offset = some ("", newOffset)) (printed : List String) :
    ∀ n, mainAnswerLoop response n offset printed = some (offset, printed) := by
  intro n
  induction n with
  | zero => rfl
  | succ n ih => simp [mainAnswerLoop, h, ih]

/-! ## Header of a query, lengths, and short buffers -/

theorem parseHeader_queryHeaderBytes (id : Nat) (hid : id < 65536) (tail : List Nat) :
    parseHeader (queryHeaderBytes id ++ tail)
      = some { ID := id, Flags := 0x0100, QDCount := 1, ANCount := 0, NSCount := 0,
               ARCount := 0 } := by
  have e : queryHeaderBytes id ++ tail
      = id / 256 :: id % 256 :: 1 :: 0 :: 0 :: 1 :: 0 :: 0 :: 0 :: 0 :: 0 :: 0 :: tail := rfl
  rw [e, parseHeader_cons12, be16_eq (id / 256) (id % 256) (by omega) (by omega)]
  have h1 : be16 1 0 = 256 := by decide
  have h2 : be16 0 1 = 1 := by decide
  have h3 : be16 0 0 = 0 := by decide
  rw [h1, h2, h3]
  have h4 : 256 * (id / 256) + id % 256 = id := Nat.div_add_mod id 256
  rw [h4]

theorem encodedLabels_splitDot_length (domain : List Nat) :
    (encodedLabels (splitDot domain)).length = domain.length + 1 := by
  induction domain with
  | nil => rfl
  | cons c cs ih =>
    unfold splitDot
    by_cases hc : c = dot
    · simp [hc, encodedLabels, ih]
    · simp only [hc, if_false]
      cases hs : splitDot cs with
      | nil => exact absurd hs (splitDot_ne_nil cs)
      | cons part parts =>
        rw [hs] at ih
        simp only [encodedLabels, List.length_cons, List.length_append] at ih ⊢
        omega

theorem encodeDomainName_length (domain : List Nat) :
    (encodeDomainName domain).length = domain.length + 2 := by
  rw [encodeDomainName_eq, List.length_append, encodedLabels_splitDot_length]
  rfl

theorem buildQuery_length (pid : Nat) (domain : List Nat) (queryType : Nat) :
    (buildQuery pid domain queryType).length = domain.length + 18 := by
  rw [buildQuery_eq]
  simp only [List.length_append, encodeDomainName_length]
  simp [queryHeaderBytes]
  omega

theorem parseHeader_some_length (buf : List Nat) (h : DNSHeader)
    (hsome : parseHeader buf = some h) : 12 ≤ buf.length := by
  unfold parseHeader at hsome
  simp only [Option.bind_eq_bind, Option.bind_eq_some] at hsome
  obtain ⟨_, _, _, _, _, _, _, _, _, _, _, _, _, _, _, _, _, _, _, _, _, _, b11, h11, _⟩ :=
    hsome
  obtain ⟨hlt, _⟩ := List.getElem?_eq_some.mp h11
  omega

theorem parseHeader_isSome_of_length (buf : List Nat) (hlen : 12 ≤ buf.length) :
    ∃ h, parseHeader buf = some h := by
  obtain ⟨b0, b1, b2, b3, b4, b5, b6, b7, b8, b9, b10, b11, rest, rfl⟩ :=
    exists_cons12 buf hlen
  exact ⟨_, parseHeader_cons12 b0 b1 b2 b3 b4 b5 b6 b7 b8 b9 b10 b11 rest⟩

/-! ## Injectivity of the encoder -/

theorem intercalate_cons_of_ne_nil (l : List Nat) (ls : List (List Nat)) (h : ls ≠ []) :
    List.intercalate [dot] (l :: ls) = l ++ dot :: List.intercalate [dot] ls := by
  cases ls with
  | nil => exact absurd rfl h
  | cons m ms => simp [List.intercalate, List.intersperse]

/-- Joining the parts of `strings.Split(domain, ".")` with dots gives the domain back. -/
theorem intercalate_splitDot (domain : List Nat) :
    List.intercalate [dot] (splitDot domain) = domain := by
  induction domain with
  | nil => simp [splitDot, List.intercalate]
  | cons c cs ih =>
    unfold splitDot
    by_cases hc : c = dot
    · simp only [hc, if_true]
      rw [intercalate_cons_of_ne_nil [] (splitDot cs) (splitDot_ne_nil cs), ih]
      rfl
    · simp only [hc, if_false]
      cases hs : splitDot cs with
      | nil => exact absurd hs (splitDot_ne_nil cs)
      | cons part parts =>
        rw [hs] at ih
        cases parts with
        | nil =>
          rw [intercalate_singleton] at ih ⊢
          rw [ih]
        | cons m ms =>
          rw [intercalate_cons_of_ne_nil _ _ (List.cons_ne_nil _ _)] at ih ⊢
          rw [List.cons_append, ih]

theorem wireLabels_injective (ls : List (List Nat)) :
    ∀ ms : List (List Nat), wireLabels ls = wireLabels ms → ls = ms := by
  induction ls with
  | nil =>
    intro ms h
    cases ms with
    | nil => rfl
    | cons m ms => simp [wireLabels] at h
  | cons l ls ih =>
    intro ms h
    cases ms with
    | nil => simp [wireLabels] at h
    | cons m ms =>
      simp only [wireLabels, List.cons.injEq] at h
      obtain ⟨hlen, happ⟩ := h
      obtain ⟨h1, h2⟩ := List.append_inj happ hlen
      rw [h1, ih ms h2]

theorem encodeDomainName_injective (d1 d2 : List Nat)
    (h1 : ∀ l ∈ splitDot d1, l.length ≤ 255) (h2 : ∀ l ∈ splitDot d2, l.length ≤ 255)
    (h : encodeDomainName d1 = encodeDomainName d2) : d1 = d2 := by
  rw [encodeDomainName_eq, encodeDomainName_eq,
    encodedLabels_eq_wireLabels _ (fun l hl => by have := h1 l hl; omega),
    encodedLabels_eq_wireLabels _ (fun l hl => by have := h2 l hl; omega)] at h
  have hw := List.append_cancel_right h
  have hs := wireLabels_injective _ _ hw
  rw [← intercalate_splitDot d1, ← intercalate_splitDot d2, hs]

theorem buildQuery_injective (pid queryType : Nat) (d1 d2 : List Nat)
    (h1 : ∀ l ∈ splitDot d1, l.length ≤ 255) (h2 : ∀ l ∈ splitDot d2, l.length ≤ 255)
    (h : buildQuery pid d1 queryType = buildQuery pid d2 queryType) : d1 = d2 := by
  rw [buildQuery_eq, buildQuery_eq] at h
  have h3 := List.append_cancel_right h
  exact encodeDomainName_injective d1 d2 h1 h2 (List.append_cancel_left h3)

/-! ## Names that run past the buffer, and the bytes `parseAnswer` never reads -/

theorem skipQuestionLoop_at_end (buf : List Nat) (fuel offset : Nat)
    (h : buf.length ≤ offset) : skipQuestionLoop buf fuel offset = offset := by
  cases fuel with
  | zero => rfl
  | succ f =>
    have hnone : buf[offset]? = none := List.getElem?_eq_none h
    simp [skipQuestionLoop, hnone]

/-- The loop of `skipQuestion` over labels of which the last one, with length byte `n`,
has at most `n` bytes left in the buffer: the loop is left at the offset the last length
byte leads to, at or past the end of the buffer. -/
theorem skipQuestionLoop_truncated (ls : List (List Nat)) :
    ∀ (pre content : List Nat) (n fuel : Nat),
      (∀ l ∈ ls, l ≠ [] ∧ l.length &&& 0xC0 ≠ 0xC0) →
      n ≠ 0 → n &&& 0xC0 ≠ 0xC0 → content.length ≤ n →
      (wireLabels ls).length + 1 + content.length ≤ fuel →
      skipQuestionLoop (pre ++ wireLabels ls ++ n :: content) fuel pre.length
        = pre.length + (wireLabels ls).length + n + 1 := by
  induction ls with
  | nil =>
    intro pre content n fuel _ hn hnp hc hfuel
    obtain ⟨f, rfl⟩ : ∃ f, fuel = f + 1 := ⟨fuel - 1, by omega⟩
    simp only [wireLabels, List.append_nil, List.length_nil, Nat.add_zero]
    rw [skipQuestionLoop, getElem?_at_length]
    simp only [hn, hnp, if_false]
    exact skipQuestionLoop_at_end _ _ _ (by simp; omega)
  | cons l ls ih =>
    intro pre content n fuel hl hn hnp hc hfuel
    obtain ⟨f, rfl⟩ : ∃ f, fuel = f + 1 := ⟨fuel - 1, by omega⟩
    have hl0 := hl l (by simp)
    have hlen : l.length ≠ 0 := by
      intro e; exact hl0.1 (List.length_eq_zero.mp e)
    have hbuf : pre ++ wireLabels (l :: ls) ++ n :: content
        = (pre ++ l.length :: l) ++ wireLabels ls ++ n :: content := by
      simp [wireLabels]
    have hread : (pre ++ wireLabels (l :: ls) ++ n :: content)[pre.length]? = some l.length := by
      have e : pre ++ wireLabels (l :: ls) ++ n :: content
          = pre ++ l.length :: (l ++ wireLabels ls ++ n :: content) := by simp [wireLabels]
      rw [e, getElem?_at_length]
    rw [skipQuestionLoop, hread]
    simp only [hlen, hl0.2, if_false]
    have hfuel2 : (wireLabels ls).length + 1 + content.length ≤ f := by
      simp [wireLabels] at hfuel; omega
    have key := ih (pre ++ l.length :: l) content n f
      (fun x hx => hl x (by simp [hx])) hn hnp hc hfuel2
    rw [hbuf]
    have hoff : pre.length + l.length + 1 = (pre ++ l.length :: l).length := by simp; omega
    rw [hoff, key]
    simp [wireLabels]; omega

/-- The function `parseAnswer` once the first byte and the end `e` of the name are known:
only the bytes from `e + 8` on are read. -/
theorem parseAnswer_from_name_end (buf : List Nat) (off first e : Nat)
    (h0 : buf[off]? = some first)
    (he : (if first &&& 0xC0 = 0xC0 then off + 2
            else parseAnswerLoop buf (buf.length - off) off) = e) :
    parseAnswer buf off
      = (do
          let hi ← buf[e + 8]?
          let lo ← buf[e + 8 + 1]?
          if be16 hi lo = 4 then do
            let a ← buf[e + 8 + 2]?
            let b ← buf[e + 8 + 2 + 1]?
            let c ← buf[e + 8 + 2 + 2]?
            let d ← buf[e + 8 + 2 + 3]?
            pure (ipv4String a b c d, e + 8 + 2 + be16 hi lo)
          else
            pure ("", e + 8 + 2 + be16 hi lo)) := by
  unfold parseAnswer
  simp only [h0, Option.bind_eq_bind, Option.some_bind, he]

/-- A record read by `parseAnswer` is a function of the offset after the name and of the
bytes that follow the 8 bytes of type, class and TTL. -/
theorem parseAnswer_tail (pre name fixed tail : List Nat)
    (hname : IsAnswerName name) (hfixed : fixed.length = 8) :
    parseAnswer (pre ++ name ++ fixed ++ tail) pre.length
      = (do
          let hi ← tail[0]?
          let lo ← tail[1]?
          if be16 hi lo = 4 then do
            let a ← tail[2]?
            let b ← tail[3]?
            let c ← tail[4]?
            let d ← tail[5]?
            pure (ipv4String a b c d, pre.length + name.length + 8 + 2 + be16 hi lo)
          else
            pure ("", pre.length + name.length + 8 + 2 + be16 hi lo)) := by
  obtain ⟨first, h0, he⟩ := answerName_end pre name (fixed ++ tail) hname
  have ebuf : pre ++ name ++ fixed ++ tail = pre ++ name ++ (fixed ++ tail) := by simp
  have hidx : ∀ k, (pre ++ name ++ fixed ++ tail)[pre.length + name.length + 8 + k]?
      = tail[k]? := by
    intro k
    rw [List.getElem?_append_right (by simp [hfixed]; omega)]
    congr 1
    simp [hfixed]
    omega
  rw [← ebuf] at h0 he
  rw [parseAnswer_from_name_end _ pre.length first (pre.length + name.length) h0 he]
  have i0 := hidx 0
  have i1 := hidx 1
  have i2 := hidx 2
  have i3 := hidx 3
  have i4 := hidx 4
  have i5 := hidx 5
  rw [Nat.add_zero] at i0
  rw [i0, i1, i2,
    show pre.length + name.length + 8 + 2 + 1 = pre.length + name.length + 8 + 3 by omega,
    show pre.length + name.length + 8 + 2 + 2 = pre.length + name.length + 8 + 4 by omega,
    show pre.length + name.length + 8 + 2 + 3 = pre.length + name.length + 8 + 5 by omega,
    i3, i4, i5]

theorem ipv4String_ne_empty (a b c d : Nat) : ipv4String a b c d ≠ "" := by
  intro h
  have hlen := congrArg String.length h
  simp only [ipv4String, String.length_append] at hlen
  have h1 : ".".length = 1 := rfl
  have h0 : "".length = 0 := rfl
  rw [h1, h0] at hlen
  omega

/-! ## The start of the loop body of `main` -/

theorem asciiLower_lt (c : Nat) (h : asciiLower c < 128) : c < 128 := by
  unfold asciiLower at h
  split at h <;> omega

theorem all_ascii_of_fold (d : List Nat) (h : equalFoldAscii d exitWord) :
    d.all (fun c => decide (c < 0x80)) = true := by
  rw [List.all_eq_true]
  intro x hx
  have hmem : asciiLower x ∈ d.map asciiLower := List.mem_map_of_mem asciiLower hx
  unfold equalFoldAscii at h
  rw [h] at hmem
  have hlt : asciiLower x < 128 := by
    have hall : ∀ y ∈ exitWord.map asciiLower, y < 128 := by decide
    exact hall _ hmem
  exact decide_eq_true (asciiLower_lt x hlt)

/-- A string equal to `"exit"` up to ASCII case is lowered to `"exit"` by `strings.ToLower`,
whatever the Unicode tables are. -/
theorem toLower_of_fold (unicodeLower : List Nat → List Nat) (d : List Nat)
    (h : equalFoldAscii d exitWord) : toLower unicodeLower d = exitWord := by
  unfold toLower
  rw [if_pos (all_ascii_of_fold d h)]
  unfold equalFoldAscii at h
  rw [h]
  decide

theorem mainStep_quit (unicodeLower : List Nat → List Nat) (pid : Nat) (line : List Nat)
    (h : equalFoldAscii (readUserInput line) exitWord) :
    mainStep unicodeLower pid line = LoopAction.quit := by
  unfold mainStep
  simp only [toLower_of_fold unicodeLower _ h, if_true]

theorem mainStep_reprompt (unicodeLower : List Nat → List Nat) (pid : Nat) (line : List Nat)
    (h : readUserInput line = []) :
    mainStep unicodeLower pid line = LoopAction.reprompt := by
  unfold mainStep
  simp only [h]
  have hne : toLower unicodeLower [] ≠ exitWord := by
    have e : toLower unicodeLower [] = [] := rfl
    rw [e]
    decide
  simp [hne]

/-! ## Termination of the name loops -/

theorem runLoop_succ (pass : Nat → LoopControl) :
    ∀ (fuel offset count : Nat) (r : Nat × Nat),
      runLoop pass fuel offset count = some r →
      runLoop pass (fuel + 1) offset count = some r := by
  intro fuel
  induction fuel with
  | zero =>
    intro offset count r h
    simp [runLoop] at h
  | succ f ih =>
    intro offset count r h
    rw [runLoop] at h ⊢
    cases hp : pass offset with
    | leave o => rw [hp] at h; exact h
    | breakAt o => rw [hp] at h; exact h
    | goOn o =>
      rw [hp] at h
      exact ih o (count + 1) r h

theorem runLoop_add (pass : Nat → LoopControl) (fuel offset count : Nat) (r : Nat × Nat)
    (h : runLoop pass fuel offset count = some r) :
    ∀ extra, runLoop pass (fuel + extra) offset count = some r := by
  intro extra
  induction extra with
  | zero => exact h
  | succ k ih => exact runLoop_succ pass (fuel + k) offset count r ih

/-- The name loop of `skipQuestion` is left within `len(response) - offset` iterations,
at the offset that `skipQuestionLoop` computes. -/
theorem runLoop_skipQuestion (response : List Nat) :
    ∀ (fuel offset count : Nat), response.length - offset ≤ fuel →
      ∃ n, n ≤ response.length - offset ∧
        runLoop (skipQuestionPass response) (fuel + 1) offset count
          = some (skipQuestionLoop response fuel offset, count + n) := by
  intro fuel
  induction fuel with
  | zero =>
    intro offset count h
    have hnone : response[offset]? = none := List.getElem?_eq_none (by omega)
    exact ⟨0, Nat.zero_le _, by simp [runLoop, skipQuestionPass, hnone, skipQuestionLoop]⟩
  | succ f ih =>
    intro offset count h
    cases hread : response[offset]? with
    | none =>
      exact ⟨0, Nat.zero_le _, by simp [runLoop, skipQuestionPass, hread, skipQuestionLoop]⟩
    | some length =>
      obtain ⟨hlt, _⟩ := List.getElem?_eq_some.mp hread
      by_cases h0 : length = 0
      · exact ⟨1, by omega, by simp [runLoop, skipQuestionPass, hread, skipQuestionLoop, h0]⟩
      · by_cases hp : length &&& 0xC0 = 0xC0
        · exact ⟨1, by omega,
            by simp [runLoop, skipQuestionPass, hread, skipQuestionLoop, h0, hp]⟩
        · obtain ⟨n, hn, hrun⟩ := ih (offset + length + 1) (count + 1) (by omega)
          refine ⟨n + 1, by omega, ?_⟩
          rw [runLoop]
          simp only [skipQuestionPass, hread, h0, hp, if_false]
          rw [hrun, skipQuestionLoop.eq_2]
          simp only [hread, h0, hp, if_false]
          rw [Nat.add_assoc count 1 n, Nat.add_comm 1 n]

/-- The name loop of `parseAnswer` is left within `len(response) - offset` iterations, at
the offset that `parseAnswerLoop` computes. -/
theorem runLoop_parseAnswer (response : List Nat) :
    ∀ (fuel offset count : Nat), response.length - offset ≤ fuel →
      ∃ n, n ≤ response.length - offset ∧
        runLoop (parseAnswerPass response) (fuel + 1) offset count
          = some (parseAnswerLoop response fuel offset, count + n) := by
  intro fuel
  induction fuel with
  | zero =>
    intro offset count h
    have hnone : response[offset]? = none := List.getElem?_eq_none (by omega)
    exact ⟨0, Nat.zero_le _, by simp [runLoop, parseAnswerPass, hnone, parseAnswerLoop]⟩
  | succ f ih =>
    intro offset count h
    cases hread : response[offset]? with
    | none =>
      exact ⟨0, Nat.zero_le _, by simp [runLoop, parseAnswerPass, hread, parseAnswerLoop]⟩
    | some length =>
      obtain ⟨hlt, _⟩ := List.getElem?_eq_some.mp hread
      by_cases h0 : length = 0
      · exact ⟨1, by omega, by simp [runLoop, parseAnswerPass, hread, parseAnswerLoop, h0]⟩
      · obtain ⟨n, hn, hrun⟩ := ih (offset + length + 1) (count + 1) (by omega)
        refine ⟨n + 1, by omega, ?_⟩
        rw [runLoop]
        simp only [parseAnswerPass, hread, h0, if_false]
        rw [hrun, parseAnswerLoop.eq_2]
        simp only [hread, h0, if_false]
        rw [Nat.add_assoc count 1 n, Nat.add_comm 1 n]

theorem skipQuestionPass_advances (response : List Nat) (o : Nat) :
    passAdvances response.length o (skipQuestionPass response o) := by
  unfold skipQuestionPass
  cases hread : response[o]? with
  | none =>
    exact ⟨rfl, List.getElem?_eq_none_iff.mp hread⟩
  | some length =>
    obtain ⟨hlt, _⟩ := List.getElem?_eq_some.mp hread
    by_cases h0 : length = 0
    · simp only [h0, if_true]; exact hlt
    · by_cases hp : length &&& 0xC0 = 0xC0
      · simp only [h0, hp, if_true, if_false]; exact hlt
      · simp only [h0, hp, if_false]
        exact ⟨hlt, by omega⟩

theorem parseAnswerPass_advances (response : List Nat) (o : Nat) :
    passAdvances response.length o (parseAnswerPass response o) := by
  unfold parseAnswerPass
  cases hread : response[o]? with
  | none =>
    exact ⟨rfl, List.getElem?_eq_none_iff.mp hread⟩
  | some length =>
    obtain ⟨hlt, _⟩ := List.getElem?_eq_some.mp hread
    by_cases h0 : length = 0
    · simp only [h0, if_true]; exact hlt
    · simp only [h0, if_false]
      exact ⟨hlt, by omega⟩

/-! ## Records whose name is an answer name -/

/-- A record whose name is an answer name and whose RDLENGTH field `256 * hi + lo` is 4:
`parseAnswer` returns the four RDATA bytes written in decimal and joined by `"."`, and
the offset `offset + len(name) + 8 + 2 + 4`. -/
theorem parseAnswer_address_of_answerName (pre name fixed rest : List Nat)
    (hi lo a b c d : Nat)
    (hname : IsAnswerName name) (hfixed : fixed.length = 8)
    (hhi : hi < 256) (hlo : lo < 256) (hrd : 256 * hi + lo = 4) :
    parseAnswer (pre ++ name ++ fixed ++ [hi, lo] ++ [a, b, c, d] ++ rest) pre.length
      = some (String.intercalate "." [Nat.repr a, Nat.repr b, Nat.repr c, Nat.repr d],
              pre.length + name.length + 8 + 2 + 4) := by
  have e : pre ++ name ++ fixed ++ [hi, lo] ++ [a, b, c, d] ++ rest
      = pre ++ name ++ fixed ++ hi :: lo :: a :: b :: c :: d :: rest := by simp
  rw [e, parseAnswer_address_record pre name fixed rest hi lo a b c d hname hfixed
    (by rw [be16_eq hi lo hhi hlo]; exact hrd), ipv4String_eq_intercalate]

/-- A record whose name is an answer name and whose RDLENGTH field `r = 256 * hi + lo` is
not 4: `parseAnswer` returns the empty string and the offset `offset + len(name) + 10 + r`. -/
theorem parseAnswer_skip_of_answerName (pre name fixed rest : List Nat) (hi lo : Nat)
    (hname : IsAnswerName name) (hfixed : fixed.length = 8)
    (hhi : hi < 256) (hlo : lo < 256) (hrd : 256 * hi + lo ≠ 4) :
    parseAnswer (pre ++ name ++ fixed ++ [hi, lo] ++ rest) pre.length
      = some ("", pre.length + name.length + 10 + (256 * hi + lo)) := by
  have e : pre ++ name ++ fixed ++ [hi, lo] ++ rest
      = pre ++ name ++ fixed ++ hi :: lo :: rest := by simp
  have hbe := be16_eq hi lo hhi hlo
  rw [e, parseAnswer_other_record pre name fixed rest hi lo hname hfixed
    (by rw [hbe]; exact hrd), hbe]

/-- Two buffers that differ only in the 8 bytes of type, class and TTL after an answer
name give the same result. -/
theorem parseAnswer_fixed_of_answerName (pre name fixed1 fixed2 tail : List Nat)
    (hname : IsAnswerName name) (h1 : fixed1.length = 8) (h2 : fixed2.length = 8) :
    parseAnswer (pre ++ name ++ fixed1 ++ tail) pre.length
      = parseAnswer (pre ++ name ++ fixed2 ++ tail) pre.length := by
  rw [parseAnswer_tail pre name fixed1 tail hname h1,
    parseAnswer_tail pre name fixed2 tail hname h2]

/-! ## `skipQuestion` on Go's `int` -/

theorem wrapInt_of_fits (x : Int) (h1 : -9223372036854775808 ≤ x) (h2 : x ≤ maxInt) :
    wrapInt x = x := by
  unfold wrapInt
  unfold maxInt at h2
  omega

theorem wrapInt_of_over (x : Int) (h1 : maxInt < x) (h2 : x ≤ maxInt + 18446744073709551616) :
    wrapInt x = x - 18446744073709551616 := by
  unfold wrapInt
  unfold maxInt at h1 h2
  omega

theorem skipQuestionLoop_ge (response : List Nat) :
    ∀ (fuel offset : Nat), offset ≤ skipQuestionLoop response fuel offset := by
  intro fuel
  induction fuel with
  | zero => intro offset; exact Nat.le_refl _
  | succ f ih =>
    intro offset
    rw [skipQuestionLoop]
    cases hread : response[offset]? with
    | none => exact Nat.le_refl _
    | some length =>
      by_cases h0 : length = 0
      · simp [h0]
      · by_cases hp : length &&& 0xC0 = 0xC0
        · simp [h0, hp]
        · simp only [h0, hp, if_false]
          have := ih (offset + length + 1)
          omega

/-- With enough passes, and as long as the offset at which the loop is left fits in an
`int`, the `int` loop of `skipQuestion` is the loop on natural numbers. -/
theorem skipQuestionLoopInt_eq (response : List Nat) :
    ∀ (fuel offset : Nat), response.length - offset ≤ fuel →
      ((skipQuestionLoop response fuel offset : Nat) : Int) ≤ maxInt →
      skipQuestionLoopInt response fuel (offset : Int)
        = some ((skipQuestionLoop response fuel offset : Nat) : Int) := by
  intro fuel
  induction fuel with
  | zero =>
    intro offset hfuel _
    have hnot : ¬ ((offset : Int) < (response.length : Int)) := by omega
    simp [skipQuestionLoopInt, skipQuestionLoop, hnot]
  | succ f ih =>
    intro offset hfuel hfit
    rw [skipQuestionLoop] at hfit ⊢
    rw [skipQuestionLoopInt]
    by_cases hlt : offset < response.length
    · have hc : (offset : Int) < (response.length : Int) := by omega
      have hneg : ¬ ((offset : Int) < 0) := by omega
      rw [if_pos hc, if_neg hneg, Int.toNat_ofNat]
      cases hread : response[offset]? with
      | none =>
        have := List.getElem?_eq_none_iff.mp hread
        omega
      | some length =>
        rw [hread] at hfit
        by_cases h0 : length = 0
        · simp only [h0, if_true] at hfit ⊢
          rw [wrapInt_of_fits _ (by omega) (by push_cast at hfit; exact hfit)]
          push_cast
          rfl
        · by_cases hp : length &&& 0xC0 = 0xC0
          · simp only [h0, hp, if_true, if_false] at hfit ⊢
            rw [wrapInt_of_fits _ (by omega) (by push_cast at hfit; exact hfit)]
            push_cast
            rfl
          · simp only [h0, hp, if_false] at hfit ⊢
            have hge := skipQuestionLoop_ge response f (offset + length + 1)
            have hw : wrapInt ((offset : Int) + (length : Int) + 1)
                = ((offset + length + 1 : Nat) : Int) := by
              rw [wrapInt_of_fits _ (by omega) (by omega)]
              push_cast
              rfl
            rw [hw]
            exact ih (offset + length + 1) (by omega) hfit
    · have hc : ¬ ((offset : Int) < (response.length : Int)) := by omega
      have hnone : response[offset]? = none := List.getElem?_eq_none (by omega)
      rw [if_neg hc, hnone]

/-- Whenever the result of `skipQuestion` on natural numbers fits in an `int`, the
function on `int` returns it: the two models agree on every offset of a real message. -/
theorem skipQuestionInt_eq (response : List Nat) (offset : Nat)
    (hfit : ((skipQuestion response offset : Nat) : Int) ≤ maxInt) :
    skipQuestionInt response (offset : Int) = some ((skipQuestion response offset : Nat) : Int) := by
  unfold skipQuestion at hfit ⊢
  unfold skipQuestionInt
  have hfuel : response.length + 1
      = response.length - offset + (response.length + 1 - (response.length - offset)) := by
    omega
  have henough : skipQuestionLoop response (response.length + 1) offset
      = skipQuestionLoop response (response.length - offset) offset := by
    rw [hfuel]
    exact skipQuestionLoop_enough response offset _
  have hloop := skipQuestionLoopInt_eq response (response.length + 1) offset (by omega)
    (by rw [henough]; push_cast at hfit ⊢; omega)
  rw [hloop, henough, Option.map_some']
  rw [wrapInt_of_fits _ (by omega) (by push_cast at hfit ⊢; exact hfit)]
  push_cast
  rfl

/-- On a buffer of bytes whose length is a value of `int`, one more pass allowed changes
nothing for the `int` loop of `skipQuestion` once the count covers the rest of the buffer:
a pass moves the offset forward, or wraps it to a negative value on which the next pass
stops. -/
theorem skipQuestionLoopInt_succ (response : List Nat) (hb : IsBytes response)
    (hlen : (response.length : Int) ≤ maxInt) :
    ∀ (fuel : Nat) (offset : Int),
      (offset < 0 ∨ (response.length : Int) - offset ≤ (fuel : Int)) →
      skipQuestionLoopInt response (fuel + 1) offset
        = skipQuestionLoopInt response fuel offset := by
  intro fuel
  induction fuel with
  | zero =>
    intro offset h
    rw [skipQuestionLoopInt, skipQuestionLoopInt]
    by_cases hc : offset < (response.length : Int)
    · have hneg : offset < 0 := by omega
      rw [if_pos hc, if_pos hneg, if_pos hc]
    · rw [if_neg hc, if_neg hc]
  | succ f ih =>
    intro offset h
    conv_lhs => rw [skipQuestionLoopInt]
    conv_rhs => rw [skipQuestionLoopInt]
    by_cases hc : offset < (response.length : Int)
    · rw [if_pos hc, if_pos hc]
      by_cases hneg : offset < 0
      · rw [if_pos hneg, if_pos hneg]
      · rw [if_neg hneg, if_neg hneg]
        cases hread : response[offset.toNat]? with
        | none => rfl
        | some length =>
          obtain ⟨hidx, hval⟩ := List.getElem?_eq_some.mp hread
          have hbyte : length < 256 := by
            rw [← hval]
            exact hb _ (List.getElem_mem hidx)
          by_cases h0 : length = 0
          · simp [h0]
          · by_cases hp : length &&& 0xC0 = 0xC0
            · simp [h0, hp]
            · simp only [h0, hp, if_false]
              apply ih
              by_cases hfit : offset + (length : Int) + 1 ≤ maxInt
              · rw [wrapInt_of_fits _ (by omega) hfit]
                right
                push_cast at h ⊢
                omega
              · rw [wrapInt_of_over _ (by omega) (by unfold maxInt at hlen ⊢; omega)]
                left
                unfold maxInt at hlen
                omega
    · rw [if_neg hc, if_neg hc]

/-- The count `len(response) + 1` of passes used by `skipQuestionInt` is enough on every
buffer of bytes and for every offset: any larger count gives the same result. -/
theorem skipQuestionLoopInt_enough (response : List Nat) (hb : IsBytes response)
    (hlen : (response.length : Int) ≤ maxInt) (offset : Int) (extra : Nat) :
    skipQuestionLoopInt response (response.length + 1 + extra) offset
      = skipQuestionLoopInt response (response.length + 1) offset := by
  induction extra with
  | zero => rfl
  | succ k ih =>
    rw [← Nat.add_assoc, skipQuestionLoopInt_succ response hb hlen _ offset
      (by push_cast; omega), ih]

/-- At or past the end of the buffer `skipQuestion` on `int` returns `offset + 4` in
wrapping arithmetic. -/
theorem skipQuestionInt_past_end (buf : List Nat) (offset : Int)
    (h : (buf.length : Int) ≤ offset) :
    skipQuestionInt buf offset = some (wrapInt (offset + 4)) := by
  have hc : ¬ (offset < (buf.length : Int)) := by omega
  simp [skipQuestionInt, skipQuestionLoopInt, hc]

/-- On natural numbers: labels of which the last one runs to or past the end of the
buffer lead `skipQuestion` to the offset after that label, plus 4. -/
theorem skipQuestion_truncated (pre content : List Nat) (ls : List (List Nat)) (n : Nat)
    (hl : ∀ l ∈ ls, l.length ≠ 0 ∧ l.length &&& 0xC0 ≠ 0xC0)
    (hn : n ≠ 0) (hnp : n &&& 0xC0 ≠ 0xC0) (hc : content.length ≤ n) :
    skipQuestion (pre ++ wireLabels ls ++ n :: content) pre.length
      = (pre.length + (ls.map (fun l => l.length + 1)).sum + n + 1) + 4 := by
  unfold skipQuestion
  rw [skipQuestionLoop_truncated ls pre content n _
    (fun l h => ⟨fun e => (hl l h).1 (by rw [e]; rfl), (hl l h).2⟩) hn hnp hc
    (by simp; omega), wireLabels_length]

/-! ## The claims -/

/-- C1 (as amended): for every process identifier (the transaction ID is its low 16 bits)
and every domain that is the dot-joined sequence of dot-free labels `L1..Ln`, `n ≥ 1`,
`buildQuery(D, 1)` is exactly the 12 header bytes, then for each label one byte equal to
the label's length modulo 256 followed by the label's bytes, then one zero byte, then
`0x00 0x01` (type A) and `0x00 0x01` (class IN). -/
theorem C1_buildQuery_layout (pid : Nat) (ls : List (List Nat)) (hne : ls ≠ [])
    (hdot : ∀ l ∈ ls, dot ∉ l) :
    buildQuery pid (List.intercalate [dot] ls) 1
      = queryHeaderBytes (pid % 65536) ++ encodedLabels ls ++ [0] ++ [0, 1] ++ [0, 1] := by
  rw [buildQuery_eq, encodeDomainName_eq, splitDot_intercalate ls hne hdot]
  simp

/-- Witness of C1 at the domain `"example.com"` and process identifier 70000. -/
theorem C1_buildQuery_layout_witness :
    [[101, 120, 97, 109, 112, 108, 101], [99, 111, 109]] ≠ ([] : List (List Nat)) ∧
    (∀ l ∈ [[101, 120, 97, 109, 112, 108, 101], [99, 111, 109]], dot ∉ l) ∧
    buildQuery 70000 (List.intercalate [dot] [[101, 120, 97, 109, 112, 108, 101], [99, 111, 109]]) 1
      = queryHeaderBytes (70000 % 65536)
          ++ encodedLabels [[101, 120, 97, 109, 112, 108, 101], [99, 111, 109]]
          ++ [0] ++ [0, 1] ++ [0, 1] :=
  ⟨by decide, by decide,
    C1_buildQuery_layout 70000 [[101, 120, 97, 109, 112, 108, 101], [99, 111, 109]]
      (by decide) (by decide)⟩

/-- C1 as stated fails: for the domain made of one label of 256 bytes `a`, which is
non-empty and dot-free, the byte after the header is 0 and not the label's length, so
the query is not the header, the length-prefixed label, a zero and the type and class. -/
theorem C1_counterexample :
    [List.replicate 256 97] ≠ ([] : List (List Nat)) ∧
    (∀ l ∈ [List.replicate 256 97], l ≠ [] ∧ dot ∉ l) ∧
    (buildQuery 0 (List.intercalate [dot] [List.replicate 256 97]) 1)[12]? = some 0 ∧
    buildQuery 0 (List.intercalate [dot] [List.replicate 256 97]) 1
      ≠ queryHeaderBytes 0 ++ wireLabels [List.replicate 256 97] ++ [0] ++ [0, 1] ++ [0, 1] := by
  have hlen : (List.replicate 256 97).length = 256 := List.length_replicate 256 97
  have hnd : dot ∉ List.replicate 256 97 := by
    intro h
    exact absurd (List.eq_of_mem_replicate h) (by decide)
  generalize List.replicate 256 97 = label at hlen hnd
  have h12 : (buildQuery 0 (List.intercalate [dot] [label]) 1)[12]? = some 0 := by
    rw [intercalate_singleton, buildQuery_first_length 0 label 1 hnd, hlen]
  refine ⟨List.cons_ne_nil _ _, ?_, h12, ?_⟩
  · intro l hl
    rw [List.mem_singleton] at hl
    subst hl
    refine ⟨?_, hnd⟩
    intro e
    rw [e] at hlen
    exact absurd hlen (by decide)
  · intro h
    rw [h] at h12
    simp [queryHeaderBytes, wireLabels, hlen] at h12

/-- C2: for every domain made of one or more dot-free labels (1 to 10 in particular, no
upper bound is needed) of 1 to 63 bytes each, and every query type,
`skipQuestion(buildQuery(D, t), 12)` is `len(buildQuery(D, t))`: the walk lands on the
offset right after the encoded question. -/
theorem C2_skipQuestion_buildQuery (pid queryType : Nat) (ls : List (List Nat))
    (h1 : 1 ≤ ls.length)
    (hl : ∀ l ∈ ls, 1 ≤ l.length ∧ l.length ≤ 63 ∧ dot ∉ l) :
    skipQuestion (buildQuery pid (List.intercalate [dot] ls) queryType) 12
      = (buildQuery pid (List.intercalate [dot] ls) queryType).length := by
  have hne : ls ≠ [] := by
    intro e; rw [e] at h1; exact absurd h1 (by decide)
  have hw : encodedLabels ls = wireLabels ls :=
    encodedLabels_eq_wireLabels ls (fun l hl2 => by have := hl l hl2; omega)
  have hlab : ∀ l ∈ ls, l ≠ [] ∧ l.length &&& 0xC0 ≠ 0xC0 := by
    intro l hl2
    have h := hl l hl2
    have h2 := small_length_not_pointer l.length h.1 h.2.1
    exact ⟨fun e => h2.1 (by rw [e]; rfl), h2.2⟩
  rw [buildQuery_eq, encodeDomainName_eq, splitDot_intercalate ls hne (fun l h => (hl l h).2.2), hw]
  have e : queryHeaderBytes (pid % 65536) ++ (wireLabels ls ++ [0])
        ++ [queryType / 256 % 256, queryType % 256, 0, 1]
      = queryHeaderBytes (pid % 65536) ++ wireLabels ls
        ++ 0 :: [queryType / 256 % 256, queryType % 256, 0, 1] := by simp
  have h12 : (queryHeaderBytes (pid % 65536)).length = 12 := rfl
  rw [e]
  have key := skipQuestion_labels (queryHeaderBytes (pid % 65536))
    [queryType / 256 % 256, queryType % 256, 0, 1] ls 0 hlab (Or.inl rfl)
  rw [h12] at key
  rw [key]
  simp [h12]
  omega

/-- Witness of C2 at the domain `"example.com"`, query type 1. -/
theorem C2_skipQuestion_buildQuery_witness :
    1 ≤ [[101, 120, 97, 109, 112, 108, 101], [99, 111, 109]].length ∧
    (∀ l ∈ [[101, 120, 97, 109, 112, 108, 101], [99, 111, 109]],
      1 ≤ l.length ∧ l.length ≤ 63 ∧ dot ∉ l) ∧
    skipQuestion
        (buildQuery 70000
          (List.intercalate [dot] [[101, 120, 97, 109, 112, 108, 101], [99, 111, 109]]) 1) 12
      = (buildQuery 70000
          (List.intercalate [dot] [[101, 120, 97, 109, 112, 108, 101], [99, 111, 109]]) 1).length :=
  ⟨by decide, by decide,
    C2_skipQuestion_buildQuery 70000 1 [[101, 120, 97, 109, 112, 108, 101], [99, 111, 109]]
      (by decide) (by decide)⟩

/-- C5, the code at a failing input: in `labelThenPointerResponse` (49 bytes) the record
at offset 29 lies fully inside the buffer: the name `03 w w w C0 0C` (6 bytes), 8 bytes of
type, class and TTL, the RDLENGTH field `00 04` and the RDATA `1 2 3 4`. `parseAnswer` at
offset 29 does not return `"1.2.3.4"` with the offset `29 + 6 + 8 + 2 + 4`: its name loop
takes the pointer byte for a length and the function stops on an index out of range. -/
theorem C5_address_after_label_pointer :
    labelThenPointerResponse.length = 49 ∧
    labelThenPointerResponse.drop 29
      = [3, 119, 119, 119, 0xC0, 0x0C] ++ [0, 1, 0, 1, 0, 0, 0, 60] ++ [0, 4] ++ [1, 2, 3, 4] ∧
    parseAnswer labelThenPointerResponse 29 = none ∧
    parseAnswer labelThenPointerResponse 29 ≠ some ("1.2.3.4", 29 + 6 + 8 + 2 + 4) := by
  decide

/-- C6, the code at a failing input: in `labelThenPointerAaaaResponse` (61 bytes) the
record at offset 29 lies fully inside the buffer: the name `03 w w w C0 0C` (6 bytes), 8
bytes of type, class and TTL, the RDLENGTH field `00 10` and 16 bytes of RDATA.
`parseAnswer` at offset 29 does not return the empty string with the offset
`29 + 6 + 10 + 16` of the end of the record: its name loop takes the pointer byte for a
length and the function stops on an index out of range. -/
theorem C6_skip_after_label_pointer :
    labelThenPointerAaaaResponse.length = 61 ∧
    labelThenPointerAaaaResponse.drop 29
      = [3, 119, 119, 119, 0xC0, 0x0C] ++ [0, 28, 0, 1, 0, 0, 0, 60] ++ [0, 16]
          ++ [32, 1, 13, 184, 0, 0, 0, 0, 0, 0, 0, 0, 0, 0, 0, 1] ∧
    parseAnswer labelThenPointerAaaaResponse 29 = none ∧
    parseAnswer labelThenPointerAaaaResponse 29 ≠ some ("", 29 + 6 + 10 + 16) := by
  decide

/-- C7: when the byte at `off` has both top bits set, `parseAnswer` takes 2 bytes for the
name: RDLENGTH is the big-endian value `256 * hi + lo` of the bytes at `off + 10` and
`off + 11`, the returned offset is `off + 12 + RDLENGTH`, and a second buffer that agrees
with the first on the bytes of the record (offsets `off` to `off + 12 + RDLENGTH`,
excluded) gives the same result, whatever the two buffers hold elsewhere. -/
theorem C7_parseAnswer_pointer_name (buf1 buf2 : List Nat) (off p hi lo : Nat)
    (hp : buf1[off]? = some p) (hptr : p &&& 0xC0 = 0xC0)
    (hhi : buf1[off + 10]? = some hi) (hlo : buf1[off + 11]? = some lo)
    (hbhi : hi < 256) (hblo : lo < 256)
    (hin : 256 * hi + lo = 4 → off + 16 ≤ buf1.length)
    (hagree : ∀ i, off ≤ i → i < off + 12 + (256 * hi + lo) → buf2[i]? = buf1[i]?) :
    (∃ ip, parseAnswer buf1 off = some (ip, off + 12 + (256 * hi + lo))) ∧
    parseAnswer buf2 off = parseAnswer buf1 off := by
  have hbe := be16_eq hi lo hbhi hblo
  have h1 := parseAnswer_pointer buf1 off p hi lo hp hptr hhi hlo
  have h2 := parseAnswer_pointer buf2 off p hi lo
    (by rw [hagree off (Nat.le_refl _) (by omega)]; exact hp) hptr
    (by rw [hagree (off + 10) (by omega) (by omega)]; exact hhi)
    (by rw [hagree (off + 11) (by omega) (by omega)]; exact hlo)
  rw [h1, h2, hbe]
  by_cases hr : 256 * hi + lo = 4
  · have hlen := hin hr
    rw [hagree (off + 12) (by omega) (by omega), hagree (off + 13) (by omega) (by omega),
      hagree (off + 14) (by omega) (by omega), hagree (off + 15) (by omega) (by omega)]
    refine ⟨⟨ipv4String (buf1[off + 12]) (buf1[off + 13]) (buf1[off + 14]) (buf1[off + 15]), ?_⟩,
      rfl⟩
    rw [List.getElem?_eq_getElem (show off + 12 < buf1.length by omega),
      List.getElem?_eq_getElem (show off + 13 < buf1.length by omega),
      List.getElem?_eq_getElem (show off + 14 < buf1.length by omega),
      List.getElem?_eq_getElem (show off + 15 < buf1.length by omega)]
    simp [hr]
  · exact ⟨⟨"", by simp [hr]⟩, by simp [hr]⟩

/-- Witness of C7: two 32-byte buffers holding the same record at offset 12, pointer
`0xC0 0x00`, and different bytes at the pointer's target (offset 0). -/
theorem C7_parseAnswer_pointer_name_witness :
    (∃ ip, parseAnswer
        ([3, 119, 119, 119, 0, 0, 0, 0, 0, 0, 0, 0]
          ++ [0xC0, 0x00, 0, 1, 0, 1, 0, 0, 0, 60, 0, 4, 1, 2, 3, 4] ++ [9, 9, 9, 9]) 12
      = some (ip, 12 + 12 + (256 * 0 + 4))) ∧
    parseAnswer
        ([0xC0, 0xFF, 7, 7, 7, 7, 7, 7, 7, 7, 7, 7]
          ++ [0xC0, 0x00, 0, 1, 0, 1, 0, 0, 0, 60, 0, 4, 1, 2, 3, 4] ++ [])  12
      = parseAnswer
        ([3, 119, 119, 119, 0, 0, 0, 0, 0, 0, 0, 0]
          ++ [0xC0, 0x00, 0, 1, 0, 1, 0, 0, 0, 60, 0, 4, 1, 2, 3, 4] ++ [9, 9, 9, 9]) 12 :=
  C7_parseAnswer_pointer_name
    ([3, 119, 119, 119, 0, 0, 0, 0, 0, 0, 0, 0]
      ++ [0xC0, 0x00, 0, 1, 0, 1, 0, 0, 0, 60, 0, 4, 1, 2, 3, 4] ++ [9, 9, 9, 9])
    ([0xC0, 0xFF, 7, 7, 7, 7, 7, 7, 7, 7, 7, 7]
      ++ [0xC0, 0x00, 0, 1, 0, 1, 0, 0, 0, 60, 0, 4, 1, 2, 3, 4] ++ [])
    12 0xC0 0 4 rfl (by decide) rfl rfl (by decide) (by decide) (by decide)
    (by
      intro i h1 h2
      have h3 : i < 28 := h2
      interval_cases i <;> rfl)

/-- C9: for every buffer `pre ++ labels ++ t :: rest` in which, from offset `len(pre)`,
there are `k ≥ 0` labels whose length bytes are non-zero and do not have both top bits
set, followed by a byte `t` that is zero or has both top bits set, `skipQuestion` returns
`offset + sum (li + 1) + 1 + 4` when `t` is zero and `offset + sum (li + 1) + 2 + 4` when
`t` is a pointer byte. -/
theorem C9_skipQuestion_walk (pre rest : List Nat) (ls : List (List Nat)) (t : Nat)
    (hl : ∀ l ∈ ls, l.length ≠ 0 ∧ l.length &&& 0xC0 ≠ 0xC0)
    (ht : t = 0 ∨ t &&& 0xC0 = 0xC0) :
    skipQuestion (pre ++ wireLabels ls ++ t :: rest) pre.length
      = pre.length + (ls.map (fun l => l.length + 1)).sum + (if t = 0 then 1 else 2) + 4 := by
  rw [skipQuestion_labels pre rest ls t
    (fun l h => ⟨fun e => (hl l h).1 (by rw [e]; rfl), (hl l h).2⟩) ht, wireLabels_length]

/-- Witness of C9: the name `www` + zero, and the name `www` + pointer `0xC0 0x0C`, both
at offset 2. -/
theorem C9_skipQuestion_walk_witness :
    skipQuestion ([5, 5] ++ wireLabels [[119, 119, 119]] ++ 0 :: [0, 1, 0, 1]) [5, 5].length
      = 2 + (3 + 1) + 1 + 4 ∧
    skipQuestion ([5, 5] ++ wireLabels [[119, 119, 119]] ++ 0xC0 :: [0x0C, 0, 1, 0, 1])
        [5, 5].length
      = 2 + (3 + 1) + 2 + 4 :=
  ⟨C9_skipQuestion_walk [5, 5] [0, 1, 0, 1] [[119, 119, 119]] 0 (by decide) (by decide),
   C9_skipQuestion_walk [5, 5] [0x0C, 0, 1, 0, 1] [[119, 119, 119]] 0xC0 (by decide)
     (by decide)⟩

/-- C3: for a response made of a 12-byte header with ANCOUNT 2, the question for
`"example.com"` as the encoder writes it (type A, class IN), a first answer record with
RDLENGTH 4 and RDATA `[93, 184, 216, 34]`, and a second answer record whose name is a
2-byte compression pointer with RDLENGTH 4 and RDATA `[1, 2, 3, 4]`, the response handling
of `main` prints exactly `"93.184.216.34"` then `"1.2.3.4"`. The other header bytes, the
first record's name, the type, class and TTL bytes and trailing bytes are arbitrary. -/
theorem C3_end_to_end (i0 i1 f0 f1 q0 q1 n0 n1 r0 r1 p q : Nat)
    (name1 fixed1 fixed2 rest : List Nat)
    (hname1 : IsAnswerName name1) (hfixed1 : fixed1.length = 8) (hfixed2 : fixed2.length = 8)
    (hp : p &&& 0xC0 = 0xC0) :
    mainDecode
        ([i0, i1, f0, f1, q0, q1, 0, 2, n0, n1, r0, r1]
          ++ (encodeDomainName exampleCom ++ [0, 1, 0, 1])
          ++ (name1 ++ fixed1 ++ [0, 4] ++ [93, 184, 216, 34])
          ++ ([p, q] ++ fixed2 ++ [0, 4] ++ [1, 2, 3, 4]) ++ rest)
      = some ["93.184.216.34", "1.2.3.4"] := by
  rw [mainDecode_two_addresses i0 i1 f0 f1 q0 q1 n0 n1 r0 r1 p q name1 fixed1 fixed2 rest
    93 184 216 34 1 2 3 4 hname1 hfixed1 hfixed2 hp (by decide) (by decide)]
  decide

/-- Witness of C3: the first record carries the full name `"example.com"`, the second the
pointer `0xC0 0x0C`. -/
theorem C3_end_to_end_witness :
    mainDecode
        ([0, 7, 0x81, 0x80, 0, 1, 0, 2, 0, 0, 0, 0]
          ++ (encodeDomainName exampleCom ++ [0, 1, 0, 1])
          ++ ([7, 101, 120, 97, 109, 112, 108, 101, 3, 99, 111, 109, 0]
              ++ [0, 1, 0, 1, 0, 0, 0, 60] ++ [0, 4] ++ [93, 184, 216, 34])
          ++ ([0xC0, 0x0C] ++ [0, 1, 0, 1, 0, 0, 0, 60] ++ [0, 4] ++ [1, 2, 3, 4]) ++ [])
      = some ["93.184.216.34", "1.2.3.4"] :=
  C3_end_to_end 0 7 0x81 0x80 0 1 0 0 0 0 0xC0 0x0C
    [7, 101, 120, 97, 109, 112, 108, 101, 3, 99, 111, 109, 0]
    [0, 1, 0, 1, 0, 0, 0, 60] [0, 1, 0, 1, 0, 0, 0, 60] []
    (Or.inr ⟨[[101, 120, 97, 109, 112, 108, 101], [99, 111, 109]], rfl, by decide, by decide⟩)
    rfl rfl (by decide)

/-- C4, the code at a failing input: on `aaaaThenAResponse`, `parseAnswer` at offset 29
returns no address and the offset 57 of the next record, where an A record with address
1.2.3.4 stands; yet the answer loop of `main` leaves the running offset at 29 after the
AAAA record, and the response handling prints no address at all. -/
theorem C4_offset_not_advanced :
    parseAnswer aaaaThenAResponse 29 = some ("", 57) ∧
    parseAnswer aaaaThenAResponse 57 = some ("1.2.3.4", 73) ∧
    mainAnswerLoop aaaaThenAResponse 1 29 [] = some (29, []) ∧
    mainDecode aaaaThenAResponse = some [] := by
  decide

/-- C8, the code at a failing input: on `labelThenPointerResponse` the answer name at
offset 29 is the label `www` followed by a pointer byte. `skipQuestion` from offset 29
takes `(3 + 1) + 2` bytes for the name, but the name loop of `parseAnswer` takes the byte
`0xC0` as a label length and moves `0xC0 + 1` bytes on, past the end of the buffer, and
`parseAnswer` stops on an index out of range. -/
theorem C8_pointer_after_label :
    skipQuestion labelThenPointerResponse 29 = 29 + ((3 + 1) + 2) + 4 ∧
    parseAnswerLoop labelThenPointerResponse (labelThenPointerResponse.length - 29) 29
      = 29 + (3 + 1) + (0xC0 + 1) ∧
    parseAnswer labelThenPointerResponse 29 = none ∧
    mainDecode labelThenPointerResponse = none := by
  decide

/-- C10: for every buffer of at least 12 bytes, `parseHeader` returns the header whose
fields ID, Flags, QDCount, ANCount, NSCount, ARCount are `256 * buffer[2i] + buffer[2i+1]`
for `i = 0..5`, and every buffer with the same first 12 bytes gives the same header. -/
theorem C10_parseHeader_fields (buf : List Nat) (hlen : 12 ≤ buf.length) (hb : IsBytes buf) :
    parseHeader buf
      = some { ID := 256 * buf.getD 0 0 + buf.getD 1 0,
               Flags := 256 * buf.getD 2 0 + buf.getD 3 0,
               QDCount := 256 * buf.getD 4 0 + buf.getD 5 0,
               ANCount := 256 * buf.getD 6 0 + buf.getD 7 0,
               NSCount := 256 * buf.getD 8 0 + buf.getD 9 0,
               ARCount := 256 * buf.getD 10 0 + buf.getD 11 0 } ∧
    ∀ buf2 : List Nat, buf2.take 12 = buf.take 12 → parseHeader buf2 = parseHeader buf := by
  constructor
  · obtain ⟨b0, b1, b2, b3, b4, b5, b6, b7, b8, b9, b10, b11, rest, rfl⟩ :=
      exists_cons12 buf hlen
    have h : ∀ b ∈ [b0, b1, b2, b3, b4, b5, b6, b7, b8, b9, b10, b11], b < 256 := by
      intro b hmem
      apply hb
      simp only [List.mem_cons, List.mem_singleton, List.not_mem_nil, or_false] at hmem
      simp only [List.mem_cons]
      tauto
    rw [parseHeader_cons12,
      be16_eq b0 b1 (h b0 (by simp)) (h b1 (by simp)),
      be16_eq b2 b3 (h b2 (by simp)) (h b3 (by simp)),
      be16_eq b4 b5 (h b4 (by simp)) (h b5 (by simp)),
      be16_eq b6 b7 (h b6 (by simp)) (h b7 (by simp)),
      be16_eq b8 b9 (h b8 (by simp)) (h b9 (by simp)),
      be16_eq b10 b11 (h b10 (by simp)) (h b11 (by simp))]
    rfl
  · intro buf2 h
    rw [← parseHeader_take buf2, h, parseHeader_take]

/-- Witness of C10: a 14-byte buffer; the header of a response with ID `0x1234`, flags
`0x8180`, QDCOUNT 1, ANCOUNT 2. -/
theorem C10_parseHeader_fields_witness :
    parseHeader [0x12, 0x34, 0x81, 0x80, 0, 1, 0, 2, 0, 0, 0, 0, 255, 255]
      = some { ID := 0x1234, Flags := 0x8180, QDCount := 1, ANCount := 2, NSCount := 0,
               ARCount := 0 } :=
  (C10_parseHeader_fields [0x12, 0x34, 0x81, 0x80, 0, 1, 0, 2, 0, 0, 0, 0, 255, 255]
    (by decide) (by decide)).1

/-- C11: for every domain, query type and process identifier, `parseHeader` of the query
built by `buildQuery` is the header with the transaction ID (the low 16 bits of the
process identifier), Flags `0x0100`, QDCount 1 and ANCount, NSCount, ARCount 0. -/
theorem C11_parseHeader_buildQuery (pid : Nat) (domain : List Nat) (queryType : Nat) :
    parseHeader (buildQuery pid domain queryType)
      = some { ID := pid % 65536, Flags := 0x0100, QDCount := 1, ANCount := 0, NSCount := 0,
               ARCount := 0 } := by
  rw [buildQuery_eq, List.append_assoc]
  exact parseHeader_queryHeaderBytes (pid % 65536) (Nat.mod_lt _ (by decide)) _

/-- C12: for every domain and every 16-bit query type `t`, the last four bytes of
`buildQuery(D, t)` are `[t / 256, t mod 256, 0x00, 0x01]`, and the bytes before them are
the 12 header bytes followed by `encodeDomainName(D)`, with nothing in between. -/
theorem C12_buildQuery_type_class (pid : Nat) (domain : List Nat) (queryType : Nat)
    (ht : queryType < 65536) :
    (buildQuery pid domain queryType).drop ((buildQuery pid domain queryType).length - 4)
      = [queryType / 256, queryType % 256, 0x00, 0x01] ∧
    (buildQuery pid domain queryType).take ((buildQuery pid domain queryType).length - 4)
      = queryHeaderBytes (pid % 65536) ++ encodeDomainName domain ∧
    (queryHeaderBytes (pid % 65536)).length = 12 := by
  have hq : queryType / 256 % 256 = queryType / 256 := Nat.mod_eq_of_lt (by omega)
  have hlen : (buildQuery pid domain queryType).length - 4
      = (queryHeaderBytes (pid % 65536) ++ encodeDomainName domain).length := by
    rw [buildQuery_length, List.length_append, encodeDomainName_length]
    simp [queryHeaderBytes]
    omega
  rw [hlen, buildQuery_eq, hq]
  exact ⟨List.drop_left _ _, List.take_left _ _, rfl⟩

/-- Witness of C12: the query for `"example.com"` with query type 28 (AAAA). -/
theorem C12_buildQuery_type_class_witness :
    (buildQuery 70000 exampleCom 28).drop ((buildQuery 70000 exampleCom 28).length - 4)
      = [28 / 256, 28 % 256, 0x00, 0x01] ∧
    (buildQuery 70000 exampleCom 28).take ((buildQuery 70000 exampleCom 28).length - 4)
      = queryHeaderBytes (70000 % 65536) ++ encodeDomainName exampleCom ∧
    (queryHeaderBytes (70000 % 65536)).length = 12 :=
  C12_buildQuery_type_class 70000 exampleCom 28 (by decide)

/-- C16: `parseHeader` fails exactly when the buffer is shorter than 12 bytes: it returns
a header when `len(buffer) ≥ 12` and stops on an index out of range otherwise. -/
theorem C16_parseHeader_fails_iff_short (buf : List Nat) :
    (parseHeader buf = none ↔ buf.length < 12) ∧
    ((∃ h, parseHeader buf = some h) ↔ 12 ≤ buf.length) := by
  have hsome : (∃ h, parseHeader buf = some h) ↔ 12 ≤ buf.length :=
    ⟨fun ⟨h, hh⟩ => parseHeader_some_length buf h hh, parseHeader_isSome_of_length buf⟩
  refine ⟨⟨fun hnone => ?_, fun hshort => ?_⟩, hsome⟩
  · by_contra hge
    obtain ⟨h, hh⟩ := parseHeader_isSome_of_length buf (by omega)
    rw [hnone] at hh
    exact Option.noConfusion hh
  · cases hp : parseHeader buf with
    | none => rfl
    | some h =>
      have := parseHeader_some_length buf h hp
      omega

/-- C17: the encoder is total and validates nothing, and the lengths are fixed functions
of the domain length: for every domain string (the empty string, empty labels and labels
over 63 bytes included) and every query type, `len(encodeDomainName(D)) = len(D) + 2` and
`len(buildQuery(D, t)) = len(D) + 18`. -/
theorem C17_encoder_lengths (pid : Nat) (domain : List Nat) (queryType : Nat) :
    (encodeDomainName domain).length = domain.length + 2 ∧
    (buildQuery pid domain queryType).length = domain.length + 18 :=
  ⟨encodeDomainName_length domain, buildQuery_length pid domain queryType⟩

/-- C20: `encodeDomainName` is injective on the domains whose labels (the parts between
dots) are each at most 255 bytes long: two such domains have the same encoding only if
they are the same string, and so they give the same query for the same process identifier
and query type only if they are the same string. -/
theorem C20_encodeDomainName_injective (pid queryType : Nat) (d1 d2 : List Nat)
    (h1 : ∀ l ∈ splitDot d1, l.length ≤ 255) (h2 : ∀ l ∈ splitDot d2, l.length ≤ 255) :
    (encodeDomainName d1 = encodeDomainName d2 ↔ d1 = d2) ∧
    (buildQuery pid d1 queryType = buildQuery pid d2 queryType ↔ d1 = d2) :=
  ⟨⟨encodeDomainName_injective d1 d2 h1 h2, fun e => by rw [e]⟩,
   ⟨buildQuery_injective pid queryType d1 d2 h1 h2, fun e => by rw [e]⟩⟩

/-- Witness of C20 at the domains `"example.com"` and `"example.com."` (a trailing dot):
their encodings differ. -/
theorem C20_encodeDomainName_injective_witness :
    encodeDomainName exampleCom ≠ encodeDomainName (exampleCom ++ [dot]) :=
  fun h =>
    absurd ((C20_encodeDomainName_injective 0 1 exampleCom (exampleCom ++ [dot])
      (by decide) (by decide)).1.mp h) (by decide)

/-- C15 (as amended): `skipQuestion`, with its offset a Go `int` of 64 bits, never fails
on a name without terminator. For every buffer and every offset at or past its end it
returns `offset + 4` when that sum is at most the largest `int`, and the sum wrapped
around (`offset + 4 - 2^64`, a negative number) otherwise. And when, after labels whose
length bytes are non-zero and not pointer bytes, a last length byte `n` (non-zero, not a
pointer byte) with at most `n` bytes left behind it carries the scan to
`p = offset + sum (li + 1) + n + 1`, at or past the end of the buffer, it returns `p + 4`,
provided `p + 4` is at most the largest `int`. -/
theorem C15_skipQuestion_unterminated (buf : List Nat) (offset : Int)
    (hoff : (buf.length : Int) ≤ offset) (hint : offset ≤ maxInt)
    (pre content : List Nat) (ls : List (List Nat)) (n : Nat)
    (hl : ∀ l ∈ ls, l.length ≠ 0 ∧ l.length &&& 0xC0 ≠ 0xC0)
    (hn : n ≠ 0) (hnp : n &&& 0xC0 ≠ 0xC0) (hc : content.length ≤ n)
    (hfit : (((pre.length + (ls.map (fun l => l.length + 1)).sum + n + 1) + 4 : Nat) : Int)
      ≤ maxInt) :
    skipQuestionInt buf offset
      = some (if offset + 4 ≤ maxInt then offset + 4
              else offset + 4 - 18446744073709551616) ∧
    (pre ++ wireLabels ls ++ n :: content).length
      ≤ pre.length + (ls.map (fun l => l.length + 1)).sum + n + 1 ∧
    skipQuestionInt (pre ++ wireLabels ls ++ n :: content) (pre.length : Int)
      = some (((pre.length + (ls.map (fun l => l.length + 1)).sum + n + 1) + 4 : Nat) : Int) := by
  refine ⟨?_, ?_, ?_⟩
  · rw [skipQuestionInt_past_end buf offset hoff]
    by_cases h : offset + 4 ≤ maxInt
    · rw [if_pos h, wrapInt_of_fits _ (by omega) h]
    · rw [if_neg h, wrapInt_of_over _ (by omega) (by unfold maxInt at hint ⊢; omega)]
  · rw [← wireLabels_length]
    simp
    omega
  · have hnat := skipQuestion_truncated pre content ls n hl hn hnp hc
    have key := skipQuestionInt_eq (pre ++ wireLabels ls ++ n :: content) pre.length
      (by rw [hnat]; exact hfit)
    rw [key, hnat]

/-- Witness of C15: the empty buffer at offset 3 and at offset `2^63 - 2`, where the sum
wraps around, and the 8-byte buffer `03 w w w 05 a b c` scanned from offset 0, whose last
label announces 5 bytes and has 3. -/
theorem C15_skipQuestion_unterminated_witness :
    skipQuestionInt [] 3 = some 7 ∧
    skipQuestionInt [] 9223372036854775806 = some (-9223372036854775806) ∧
    skipQuestionInt ([] ++ wireLabels [[119, 119, 119]] ++ 5 :: [97, 98, 99])
        ((([] : List Nat).length : Nat) : Int)
      = some 14 :=
  ⟨(C15_skipQuestion_unterminated [] 3 (by decide) (by decide) [] [97, 98, 99]
      [[119, 119, 119]] 5 (by decide) (by decide) (by decide) (by decide) (by decide)).1.trans
      (by decide),
   (C15_skipQuestion_unterminated [] 9223372036854775806 (by decide) (by decide) []
      [97, 98, 99] [[119, 119, 119]] 5 (by decide) (by decide) (by decide) (by decide)
      (by decide)).1.trans (by decide),
   (C15_skipQuestion_unterminated [] 3 (by decide) (by decide) [] [97, 98, 99]
      [[119, 119, 119]] 5 (by decide) (by decide) (by decide) (by decide) (by decide)).2.2.trans
      (by decide)⟩

/-- C15 as stated fails: for the empty buffer and the offset `2^63 - 2`, which is at or
past the end of the buffer and is a value of Go's `int`, `skipQuestion` returns
`-9223372036854775806`, which is not `offset + 4`. -/
theorem C15_counterexample :
    ((([] : List Nat).length : Nat) : Int) ≤ 9223372036854775806 ∧
    (9223372036854775806 : Int) ≤ maxInt ∧
    skipQuestionInt [] 9223372036854775806 = some (-9223372036854775806) ∧
    skipQuestionInt [] 9223372036854775806 ≠ some (9223372036854775806 + 4) := by
  decide

/-- C18, the code at a failing input: in `labelThenPointerTxtResponse` (49 bytes) the
record at offset 29 lies fully inside the buffer, with the name `03 w w w C0 0C`, TYPE 16,
RDLENGTH 4 and RDATA `1 2 3 4`. `parseAnswer` at offset 29 yields no address: its name
loop takes the pointer byte for a length and the function stops on an index out of range.
The same record under the 2-byte name `C0 0C` yields `"1.2.3.4"`, TYPE 16 or not. -/
theorem C18_type_ignored_after_label_pointer :
    labelThenPointerTxtResponse.length = 49 ∧
    labelThenPointerTxtResponse.drop 29
      = [3, 119, 119, 119, 0xC0, 0x0C] ++ [0, 16, 0, 1, 0, 0, 0, 60] ++ [0, 4] ++ [1, 2, 3, 4] ∧
    parseAnswer labelThenPointerTxtResponse 29 = none ∧
    parseAnswer ([0xC0, 0x0C] ++ [0, 16, 0, 1, 0, 0, 0, 60] ++ [0, 4] ++ [1, 2, 3, 4]) 0
      = some ("1.2.3.4", 16) := by
  decide

/-- C13: for every input line whose trimmed text equals `"exit"` up to the case of its
letters, the loop body of `main` prints the farewell and leaves the loop: no query is
built or sent. This holds whatever `strings.ToLower` does on non-ASCII strings. -/
theorem C13_exit_sentinel (unicodeLower : List Nat → List Nat) (pid : Nat) (line : List Nat)
    (h : equalFoldAscii (readUserInput line) exitWord) :
    mainStep unicodeLower pid line = LoopAction.quit :=
  mainStep_quit unicodeLower pid line h

/-- Witness of C13: the lines `"exit"`, `" Exit"` followed by a tab, and `"EXIT"` followed
by a no-break space (U+00A0). -/
theorem C13_exit_sentinel_witness :
    mainStep (fun s => s) 70000 [101, 120, 105, 116] = LoopAction.quit ∧
    mainStep (fun s => s) 70000 [32, 69, 120, 105, 116, 9] = LoopAction.quit ∧
    mainStep (fun s => s) 70000 [69, 88, 73, 84, 0xC2, 0xA0] = LoopAction.quit :=
  ⟨C13_exit_sentinel (fun s => s) 70000 [101, 120, 105, 116] (by decide),
   C13_exit_sentinel (fun s => s) 70000 [32, 69, 120, 105, 116, 9] (by decide),
   C13_exit_sentinel (fun s => s) 70000 [69, 88, 73, 84, 0xC2, 0xA0] (by decide)⟩

/-- C14: for every input line whose trimmed text is the empty string, the loop body of
`main` neither leaves the loop nor builds a query: it prints the complaint and starts
again with the prompt. -/
theorem C14_empty_input (unicodeLower : List Nat → List Nat) (pid : Nat) (line : List Nat)
    (h : readUserInput line = []) :
    mainStep unicodeLower pid line = LoopAction.reprompt :=
  mainStep_reprompt unicodeLower pid line h

/-- Witness of C14: the empty line, and the line made of a space, a tab and a no-break
space. -/
theorem C14_empty_input_witness :
    mainStep (fun s => s) 70000 [] = LoopAction.reprompt ∧
    mainStep (fun s => s) 70000 [32, 9, 0xC2, 0xA0] = LoopAction.reprompt :=
  ⟨C14_empty_input (fun s => s) 70000 [] (by decide),
   C14_empty_input (fun s => s) 70000 [32, 9, 0xC2, 0xA0] (by decide)⟩

/-- C19 (as amended): for every buffer and every starting offset, the name loops of
`skipQuestion` and `parseAnswer` are left after a number `n` of iterations that is at most
`len(buffer) - offset` when the offset is inside the buffer and zero otherwise (the
subtraction below is the one of natural numbers, which stops at zero); any larger
allowance of passes gives the same result, which is the offset computed by
`skipQuestionLoop` and `parseAnswerLoop`. Every pass either finds the condition
`offset < len(buffer)` false, or runs the body with `offset < len(buffer)` and then breaks
or moves the offset forward by at least 2. -/
theorem C19_name_loops_terminate (response : List Nat) (offset : Nat) :
    (∃ n, n ≤ response.length - offset ∧
      ∀ extra, runLoop (skipQuestionPass response) (response.length - offset + 1 + extra)
          offset 0
        = some (skipQuestionLoop response (response.length - offset) offset, n)) ∧
    (∃ n, n ≤ response.length - offset ∧
      ∀ extra, runLoop (parseAnswerPass response) (response.length - offset + 1 + extra)
          offset 0
        = some (parseAnswerLoop response (response.length - offset) offset, n)) ∧
    (∀ o, passAdvances response.length o (skipQuestionPass response o)) ∧
    (∀ o, passAdvances response.length o (parseAnswerPass response o)) := by
  refine ⟨?_, ?_, skipQuestionPass_advances response, parseAnswerPass_advances response⟩
  · obtain ⟨n, hn, hrun⟩ :=
      runLoop_skipQuestion response (response.length - offset) offset 0 (Nat.le_refl _)
    rw [Nat.zero_add] at hrun
    exact ⟨n, hn, runLoop_add _ _ _ _ _ hrun⟩
  · obtain ⟨n, hn, hrun⟩ :=
      runLoop_parseAnswer response (response.length - offset) offset 0 (Nat.le_refl _)
    rw [Nat.zero_add] at hrun
    exact ⟨n, hn, runLoop_add _ _ _ _ _ hrun⟩

/-- C19 as stated fails: for the empty buffer and the starting offset 1 the name loop of
`skipQuestion` is left after 0 iterations, and 0 is not at most
`len(buffer) - offset = -1`. -/
theorem C19_counterexample :
    ∃ n : Nat, runLoop (skipQuestionPass []) 1 1 0 = some (1, n) ∧
      ¬ ((n : Int) ≤ ((([] : List Nat).length : Nat) : Int) - ((1 : Nat) : Int)) :=
  ⟨0, rfl, by decide⟩

end DnsCli
